import Mathlib

/-!
Shallow embedding of the Decaf bytecode back end (src/decaf/opcodes.py,
chunk.py, semantic.py, compiler.py, disasm.py, vm.py) and proofs about the
specified properties.

Modelling conventions, used throughout:
* Python `int` is unbounded, so integers become `Int`; values that are
  always non-negative in the source (byte-stream cells, slot indices,
  line numbers, arities) become `Nat`.
* Python lists are `List`s; in-place mutation becomes functional update of
  the threaded value.
* Python exceptions become `Except` / explicit fault results.  `VMRuntimeError`
  is modelled separately from Python's built-in `IndexError` (an unchecked
  list subscript) and `ValueError` (an `OpCode(...)` conversion of a byte
  that is not a member of the enum), because the source raises all three.
* A `SourceSpan` is carried only as its start line, the sole projection the
  back end ever reads (`span.start.line`).
-/

namespace Decaf

/-- Opcode enumeration from opcodes.py (`class OpCode(IntEnum)`). -/
inductive OpCode where
  | push_const
  | load_local
  | store_local
  | load_global
  | store_global
  | add
  | sub
  | mul
  | div
  | jmp
  | jmp_if_false
  | call
  | ret
  | print
  | pop
  | halt
deriving DecidableEq, Repr

/-- The `IntEnum` value of each opcode (PUSH_CONST = 0 ... HALT = 15). -/
def OpCode.toByte : OpCode → Nat
  | .push_const => 0
  | .load_local => 1
  | .store_local => 2
  | .load_global => 3
  | .store_global => 4
  | .add => 5
  | .sub => 6
  | .mul => 7
  | .div => 8
  | .jmp => 9
  | .jmp_if_false => 10
  | .call => 11
  | .ret => 12
  | .print => 13
  | .pop => 14
  | .halt => 15

/-- `OpCode(value)`: the IntEnum constructor. `none` models the `ValueError`
Python raises when `value` is not a member of the enumeration. -/
def OpCode.ofByte? : Nat → Option OpCode
  | 0 => some .push_const
  | 1 => some .load_local
  | 2 => some .store_local
  | 3 => some .load_global
  | 4 => some .store_global
  | 5 => some .add
  | 6 => some .sub
  | 7 => some .mul
  | 8 => some .div
  | 9 => some .jmp
  | 10 => some .jmp_if_false
  | 11 => some .call
  | 12 => some .ret
  | 13 => some .print
  | 14 => some .pop
  | 15 => some .halt
  | _ => none

/-- `opcode.name` of the IntEnum member, used by the disassembler. -/
def OpCode.memberName : OpCode → String
  | .push_const => "PUSH_CONST"
  | .load_local => "LOAD_LOCAL"
  | .store_local => "STORE_LOCAL"
  | .load_global => "LOAD_GLOBAL"
  | .store_global => "STORE_GLOBAL"
  | .add => "ADD"
  | .sub => "SUB"
  | .mul => "MUL"
  | .div => "DIV"
  | .jmp => "JMP"
  | .jmp_if_false => "JMP_IF_FALSE"
  | .call => "CALL"
  | .ret => "RET"
  | .print => "PRINT"
  | .pop => "POP"
  | .halt => "HALT"

/-- chunk.py `Chunk`: raw bytecode, per-byte source lines, constant pool. -/
structure Chunk where
  code : List Nat
  lines : List Nat
  constants : List Int
deriving DecidableEq, Repr

/-- `Chunk()` with the default empty fields. -/
def Chunk.empty : Chunk := ⟨[], [], []⟩

/-- `Chunk.add_constant`: append to the pool (no deduplication), return the
new entry's index. -/
def Chunk.add_constant (c : Chunk) (value : Int) : Chunk × Nat :=
  ({ c with constants := c.constants ++ [value] }, c.constants.length)

/-- `Chunk.write`: append one byte to `code` and one entry to `lines`. -/
def Chunk.write (c : Chunk) (byte : Nat) (line : Nat) : Chunk :=
  { c with code := c.code ++ [byte], lines := c.lines ++ [line] }

/-- `Chunk.write_u16`: big-endian 16-bit write.  On naturals
`(value >> 8) & 0xFF = value / 256 % 256` and `value & 0xFF = value % 256`. -/
def Chunk.write_u16 (c : Chunk) (value : Nat) (line : Nat) : Chunk :=
  (c.write (value / 256 % 256) line).write (value % 256) line

/-- `Chunk.patch_u16`: overwrite the two bytes at `offset` in place. -/
def Chunk.patch_u16 (c : Chunk) (offset : Nat) (value : Nat) : Chunk :=
  { c with code := (c.code.set offset (value / 256 % 256)).set (offset + 1) (value % 256) }

/-- chunk.py `BytecodeFunction`. -/
structure BytecodeFunction where
  name : String
  chunk : Chunk
  arity : Nat
  num_locals : Nat
deriving DecidableEq, Repr

/-- chunk.py `BytecodeProgram`. -/
structure BytecodeProgram where
  functions : List BytecodeFunction
  globals : List Int
  entry_index : Nat
deriving DecidableEq, Repr

/-!
Serialization.  `to_dict` produces the JSON-shaped dictionary and
`from_dict` reads it back.  The dictionaries are mirrored by dedicated
structures; Python's `int(x)` on an `int` and `list(...)` on a list are
identities in a value semantics, so the field copies below are the faithful
translation of the comprehensions in the source.
-/

/-- The dictionary produced by `Chunk.to_dict`. -/
structure ChunkDict where
  code : List Nat
  lines : List Nat
  constants : List Int
deriving DecidableEq, Repr

/-- `Chunk.to_dict`. -/
def Chunk.to_dict (c : Chunk) : ChunkDict :=
  { code := c.code, lines := c.lines, constants := c.constants }

/-- `Chunk.from_dict`. -/
def Chunk.from_dict (d : ChunkDict) : Chunk :=
  { code := d.code, lines := d.lines, constants := d.constants }

/-- The dictionary produced by `BytecodeFunction.to_dict`. -/
structure FunctionDict where
  name : String
  chunk : ChunkDict
  arity : Nat
  num_locals : Nat
deriving DecidableEq, Repr

/-- `BytecodeFunction.to_dict`. -/
def BytecodeFunction.to_dict (fn : BytecodeFunction) : FunctionDict :=
  { name := fn.name, chunk := fn.chunk.to_dict, arity := fn.arity, num_locals := fn.num_locals }

/-- `BytecodeFunction.from_dict`. -/
def BytecodeFunction.from_dict (d : FunctionDict) : BytecodeFunction :=
  { name := d.name, chunk := Chunk.from_dict d.chunk, arity := d.arity, num_locals := d.num_locals }

/-- The dictionary produced by `BytecodeProgram.to_dict`. -/
structure ProgramDict where
  functions : List FunctionDict
  globals : List Int
  entry_index : Nat
deriving DecidableEq, Repr

/-- `BytecodeProgram.to_dict`. -/
def BytecodeProgram.to_dict (p : BytecodeProgram) : ProgramDict :=
  { functions := p.functions.map BytecodeFunction.to_dict
    globals := p.globals
    entry_index := p.entry_index }

/-- `BytecodeProgram.from_dict`. -/
def BytecodeProgram.from_dict (d : ProgramDict) : BytecodeProgram :=
  { functions := d.functions.map BytecodeFunction.from_dict
    globals := d.globals
    entry_index := d.entry_index }

/-!
AST (ast.py).  Binary operators: the parser only ever builds `BinaryExpr`
nodes whose operator token is `+`, `-`, `*` or `/` (parser.py `_term`,
`_factor`, `_unary`), so the operator token is embedded as a four-valued
enum of lexemes.
-/

/-- Operator token lexeme of a `BinaryExpr`. -/
inductive BinOp where
  | plus
  | minus
  | star
  | slash
deriving DecidableEq, Repr

/-- ast.py expressions.  Each node carries its span's start line. -/
inductive Expr where
  | intLit (line : Nat) (value : Int)
  | varRef (line : Nat) (name : String)
  | assign (line : Nat) (name : String) (value : Expr)
  | binary (line : Nat) (left : Expr) (op : BinOp) (right : Expr)
  | call (line : Nat) (callee : String) (args : List Expr)

/-- ast.py statements.  `varDecl` carries the `VarDecl` fields inline;
`blockStmt` holds a `BlockStmt`'s statement list. -/
inductive Stmt where
  | varDecl (line : Nat) (name : String) (mutable : Bool) (init : Expr)
  | blockStmt (line : Nat) (stmts : List Stmt)
  | exprStmt (line : Nat) (e : Expr)
  | printStmt (line : Nat) (e : Expr)
  | ifStmt (line : Nat) (cond : Expr) (thenBranch : Stmt) (elseBranch : Option Stmt)
  | whileStmt (line : Nat) (cond : Expr) (body : Stmt)
  | returnStmt (line : Nat) (value : Expr)

/-- ast.py `Param`. -/
structure Param where
  name : String
  line : Nat
deriving DecidableEq, Repr

/-- ast.py `FunctionDecl`; `body` is the body block's statement list. -/
structure FunctionDecl where
  line : Nat
  name : String
  params : List Param
  body : List Stmt

/-- A top-level `VarDecl` (ast.py `VarDecl` used as a declaration). -/
structure GlobalVarDecl where
  line : Nat
  name : String
  mutable : Bool
  init : Expr

/-- ast.py top-level declarations (`Declaration = VarDecl | FunctionDecl`). -/
inductive Decl where
  | var (d : GlobalVarDecl)
  | fn (f : FunctionDecl)

/-- ast.py `Program`: the ordered list of declarations. -/
def Program := List Decl

/-!
Resolver (semantic.py).  Python attaches resolved bindings and call targets
to AST nodes through side tables keyed by node identity; in a value
semantics the same information is carried by returning an annotated copy of
the tree (`RExpr` / `RStmt`), which is content-equivalent.
-/

/-- semantic.py `GlobalBinding` / `LocalBinding` (the two `VarBinding`
subclasses that carry a slot index). -/
inductive VarBinding where
  | globalBinding (name : String) (line : Nat) (mutable : Bool) (index : Nat)
  | localBinding (name : String) (line : Nat) (mutable : Bool) (index : Nat)
deriving DecidableEq, Repr

/-- Binding name. -/
def VarBinding.name : VarBinding → String
  | .globalBinding n _ _ _ => n
  | .localBinding n _ _ _ => n

/-- Binding mutability flag. -/
def VarBinding.mutable : VarBinding → Bool
  | .globalBinding _ _ m _ => m
  | .localBinding _ _ m _ => m

/-- Binding slot index. -/
def VarBinding.index : VarBinding → Nat
  | .globalBinding _ _ _ i => i
  | .localBinding _ _ _ i => i

/-- Whether the binding is a `LocalBinding`. -/
def VarBinding.isLocal : VarBinding → Bool
  | .globalBinding _ _ _ _ => false
  | .localBinding _ _ _ _ => true

/-- Resolved expressions: `VarExpr`/`AssignExpr` carry their resolved
binding, `CallExpr` carries the target `FunctionSymbol`'s index. -/
inductive RExpr where
  | intLit (line : Nat) (value : Int)
  | varRef (line : Nat) (binding : VarBinding)
  | assign (line : Nat) (binding : VarBinding) (value : RExpr)
  | binary (line : Nat) (left : RExpr) (op : BinOp) (right : RExpr)
  | call (line : Nat) (targetIndex : Nat) (args : List RExpr)

/-- Resolved statements. -/
inductive RStmt where
  | varDecl (line : Nat) (binding : VarBinding) (init : RExpr)
  | blockStmt (line : Nat) (stmts : List RStmt)
  | exprStmt (line : Nat) (e : RExpr)
  | printStmt (line : Nat) (e : RExpr)
  | ifStmt (line : Nat) (cond : RExpr) (thenBranch : RStmt) (elseBranch : Option RStmt)
  | whileStmt (line : Nat) (cond : RExpr) (body : RStmt)
  | returnStmt (line : Nat) (value : RExpr)

/-- semantic.py `SemanticError` (message plus the span's start line). -/
structure SemanticError where
  message : String
  line : Nat
deriving DecidableEq, Repr

/-- Wraps a name in the single quotes Python's f-strings put around it. -/
def q (s : String) : String := "\x27" ++ s ++ "\x27"

/-- semantic.py `_Scope`: a name-to-binding mapping.  Python uses a dict
whose assignments overwrite; consing and first-match lookup is
lookup-equivalent. -/
def Scope := List (String × VarBinding)

/-- semantic.py `FunctionSymbol` as created by `_declare_function`
(before its `locals` / `max_locals` are populated). -/
structure FunctionSymbol where
  name : String
  index : Nat
  arity : Nat
  decl : FunctionDecl

/-- `Resolver._lookup`: walk the scope stack innermost-first (our list keeps
the innermost scope at the head, matching Python's `reversed` walk), then
fall back to the global scope. -/
def lookupScopes : List Scope → Scope → String → Option VarBinding
  | [], g, name => List.lookup name g
  | s :: rest, g, name =>
    match List.lookup name s with
    | some binding => some binding
    | none => lookupScopes rest g name

/-- `Resolver._declare_local`: bind into the innermost scope.  (The scope
stack is never empty when this runs; on `[]` we return `[]`, a case Python
could not reach either.) -/
def declare_local (scopes : List Scope) (binding : VarBinding) : List Scope :=
  match scopes with
  | [] => []
  | s :: rest => ((binding.name, binding) :: s) :: rest

/-- State accumulated by `Resolver._declare_top_level`. -/
structure TopLevel where
  global_scope : Scope
  globals : List (GlobalVarDecl × VarBinding)
  functions : List FunctionSymbol

/-- `Resolver._declare_top_level` with `_declare_global` and
`_declare_function` inlined as the two match arms. -/
def declare_top_level : List Decl → TopLevel → Except SemanticError TopLevel
  | [], acc => .ok acc
  | .var d :: rest, acc =>
    if (List.lookup d.name acc.global_scope).isSome
        || (acc.functions.find? (fun f => f.name == d.name)).isSome then
      .error ⟨"duplicate declaration of " ++ q d.name, d.line⟩
    else
      let binding := VarBinding.globalBinding d.name d.line d.mutable acc.globals.length
      declare_top_level rest
        { acc with
          global_scope := (d.name, binding) :: acc.global_scope
          globals := acc.globals ++ [(d, binding)] }
  | .fn f :: rest, acc =>
    if (acc.functions.find? (fun g => g.name == f.name)).isSome
        || (List.lookup f.name acc.global_scope).isSome then
      .error ⟨"duplicate declaration of " ++ q f.name, f.line⟩
    else
      declare_top_level rest
        { acc with
          functions := acc.functions ++ [⟨f.name, acc.functions.length, f.params.length, f⟩] }

mutual

/-- `Resolver._resolve_expr`: name lookup, immutability checks, call
validation; returns the annotated expression. -/
def resolve_expr (functions : List FunctionSymbol) (g : Scope) (scopes : List Scope) :
    Expr → Except SemanticError RExpr
  | .intLit line v => .ok (.intLit line v)
  | .varRef line name =>
    match lookupScopes scopes g name with
    | none => .error ⟨"undeclared variable " ++ q name, line⟩
    | some binding => .ok (.varRef line binding)
  | .assign line name value =>
    match lookupScopes scopes g name with
    | none => .error ⟨"undeclared variable " ++ q name, line⟩
    | some binding =>
      if !binding.mutable then
        .error ⟨"cannot assign to immutable variable " ++ q name, line⟩
      else do
        let rvalue ← resolve_expr functions g scopes value
        .ok (.assign line binding rvalue)
  | .binary line left op right => do
    let rleft ← resolve_expr functions g scopes left
    let rright ← resolve_expr functions g scopes right
    .ok (.binary line rleft op rright)
  | .call line callee args =>
    match functions.find? (fun f => f.name == callee) with
    | none => .error ⟨"unknown function " ++ q callee, line⟩
    | some symbol =>
      if args.length ≠ symbol.arity then
        .error ⟨"function " ++ q callee ++ " expects " ++ toString symbol.arity
          ++ " argument(s), got " ++ toString args.length, line⟩
      else do
        let rargs ← resolve_exprs functions g scopes args
        .ok (.call line symbol.index rargs)

/-- Argument-list resolution (the `for argument in expr.arguments` loop). -/
def resolve_exprs (functions : List FunctionSymbol) (g : Scope) (scopes : List Scope) :
    List Expr → Except SemanticError (List RExpr)
  | [] => .ok []
  | e :: es => do
    let r ← resolve_expr functions g scopes e
    let rs ← resolve_exprs functions g scopes es
    .ok (r :: rs)

end

/-- semantic.py `_FunctionContext` together with the `function.locals` list
it appends to (`context.function.locals` in the source). -/
structure FnCtx where
  next_local_index : Nat
  locals : List VarBinding
deriving DecidableEq, Repr

mutual

/-- `Resolver._resolve_stmt` (with `_resolve_local_var`, `_resolve_block`,
`_resolve_if`, `_resolve_while` inlined as match arms), threading the scope
stack and the function context. -/
def resolve_stmt (functions : List FunctionSymbol) (g : Scope) (scopes : List Scope)
    (ctx : FnCtx) : Stmt → Except SemanticError (List Scope × FnCtx × RStmt)
  | .varDecl line name mutable init => do
    let rinit ← resolve_expr functions g scopes init
    let index := ctx.next_local_index
    let binding := VarBinding.localBinding name line mutable index
    let scopes1 := declare_local scopes binding
    .ok (scopes1, ⟨index + 1, ctx.locals ++ [binding]⟩, .varDecl line binding rinit)
  | .blockStmt line stmts => do
    let (scopes1, ctx1, rstmts) ← resolve_stmts functions g (([] : Scope) :: scopes) ctx stmts
    .ok (scopes1.tail, ctx1, .blockStmt line rstmts)
  | .exprStmt line e => do
    let re ← resolve_expr functions g scopes e
    .ok (scopes, ctx, .exprStmt line re)
  | .printStmt line e => do
    let re ← resolve_expr functions g scopes e
    .ok (scopes, ctx, .printStmt line re)
  | .ifStmt line cond thenBranch elseBranch => do
    let rcond ← resolve_expr functions g scopes cond
    let (scopes1, ctx1, rthen) ← resolve_stmt functions g scopes ctx thenBranch
    match elseBranch with
    | none => .ok (scopes1, ctx1, .ifStmt line rcond rthen none)
    | some els => do
      let (scopes2, ctx2, rels) ← resolve_stmt functions g scopes1 ctx1 els
      .ok (scopes2, ctx2, .ifStmt line rcond rthen (some rels))
  | .whileStmt line cond body => do
    let rcond ← resolve_expr functions g scopes cond
    let (scopes1, ctx1, rbody) ← resolve_stmt functions g scopes ctx body
    .ok (scopes1, ctx1, .whileStmt line rcond rbody)
  | .returnStmt line value => do
    let rvalue ← resolve_expr functions g scopes value
    .ok (scopes, ctx, .returnStmt line rvalue)

/-- The `for stmt in block.statements` loop of `_resolve_block`. -/
def resolve_stmts (functions : List FunctionSymbol) (g : Scope) (scopes : List Scope)
    (ctx : FnCtx) : List Stmt → Except SemanticError (List Scope × FnCtx × List RStmt)
  | [] => .ok (scopes, ctx, [])
  | s :: ss => do
    let (scopes1, ctx1, r) ← resolve_stmt functions g scopes ctx s
    let (scopes2, ctx2, rs) ← resolve_stmts functions g scopes1 ctx1 ss
    .ok (scopes2, ctx2, r :: rs)

end

mutual

/-- `Resolver._stmt_guarantees_return`: the syntactic return-path test. -/
def stmt_guarantees_return : Stmt → Bool
  | .returnStmt _ _ => true
  | .blockStmt _ stmts => last_guarantees_return stmts
  | .ifStmt _ _ thenBranch elseBranch =>
    match elseBranch with
    | none => false
    | some els => stmt_guarantees_return thenBranch && stmt_guarantees_return els
  | _ => false

/-- Test of the last statement of a list (`statements[-1]`); empty lists
fail, as in `_guarantees_return` / the `BlockStmt` case. -/
def last_guarantees_return : List Stmt → Bool
  | [] => false
  | [s] => stmt_guarantees_return s
  | _ :: rest => last_guarantees_return rest

end

/-- `Resolver._guarantees_return` on a body block's statement list. -/
def guarantees_return (body : List Stmt) : Bool :=
  last_guarantees_return body

/-- Output of `_resolve_function`: the `FunctionSymbol` with its populated
`locals` and computed `max_locals`, plus the annotated body. -/
structure RFunction where
  name : String
  index : Nat
  arity : Nat
  decl : FunctionDecl
  locals : List VarBinding
  max_locals : Nat
  rbody : List RStmt

/-- `max((b.index for b in locals), default=-1) + 1`, computed on naturals
as a fold of `max` over `index + 1` with base `0` (the two agree because
`-1 + 1 = 0`). -/
def max_locals_of (locals : List VarBinding) : Nat :=
  locals.foldl (fun m b => max m (b.index + 1)) 0

/-- `Resolver._resolve_function`: declare parameters as mutable locals at
indices `0..arity`, resolve the body in a fresh scope pushed over the
global scope, compute `max_locals`, then run the return-path analysis. -/
def resolve_function (functions : List FunctionSymbol) (g : Scope)
    (function : FunctionSymbol) : Except SemanticError RFunction := do
  let params := function.decl.params.enum.map
    (fun pair => VarBinding.localBinding pair.2.name pair.2.line true pair.1)
  let scopes0 := params.foldl declare_local [([] : Scope)]
  let ctx0 : FnCtx := ⟨function.decl.params.length, params⟩
  let (_, ctx1, rbody) ← resolve_stmts functions g scopes0 ctx0 function.decl.body
  let ml := max_locals_of ctx1.locals
  if guarantees_return function.decl.body then
    .ok ⟨function.name, function.index, function.arity, function.decl, ctx1.locals, ml, rbody⟩
  else
    .error ⟨"function " ++ q function.name ++ " may exit without returning", function.decl.line⟩

/-- A resolved global: the declaration, its binding, its resolved
initializer (semantic.py `GlobalVariable` plus the phase-2 annotation). -/
structure RGlobal where
  decl : GlobalVarDecl
  binding : VarBinding
  rinit : RExpr

/-- semantic.py `ResolvedProgram` (the annotated tree is carried inside the
globals and functions instead of side tables). -/
structure ResolvedProgram where
  globals : List RGlobal
  functions : List RFunction

/-- The `for global_var in self._globals` loop of `resolve`: global
initializers are resolved against the global scope only. -/
def resolve_globals (functions : List FunctionSymbol) (g : Scope) :
    List (GlobalVarDecl × VarBinding) → Except SemanticError (List RGlobal)
  | [] => .ok []
  | (d, b) :: rest => do
    let rinit ← resolve_expr functions g [g] d.init
    let rs ← resolve_globals functions g rest
    .ok (⟨d, b, rinit⟩ :: rs)

/-- The `for function in self._functions` loop of `resolve`. -/
def resolve_functions (functions : List FunctionSymbol) (g : Scope) :
    List FunctionSymbol → Except SemanticError (List RFunction)
  | [] => .ok []
  | f :: rest => do
    let rf ← resolve_function functions g f
    let rs ← resolve_functions functions g rest
    .ok (rf :: rs)

/-- `Resolver.resolve`: top-level pass, global initializers against the
global scope only, then per-function resolution. -/
def resolve (program : Program) : Except SemanticError ResolvedProgram := do
  let top ← declare_top_level program ⟨[], [], []⟩
  let rglobals ← resolve_globals top.functions top.global_scope top.globals
  let rfunctions ← resolve_functions top.functions top.global_scope top.functions
  pure ⟨rglobals, rfunctions⟩

/-!
Compiler (compiler.py).  The chunk under construction is threaded through
every emit helper; `self._current_chunk` mutation becomes functional update.
-/

/-- `Compiler._emit`: write an opcode byte. -/
def emit (ch : Chunk) (opcode : OpCode) (line : Nat) : Chunk :=
  ch.write opcode.toByte line

/-- `Compiler._emit_u16`. -/
def emit_u16 (ch : Chunk) (value : Nat) (line : Nat) : Chunk :=
  ch.write_u16 value line

/-- `Compiler._emit_load_local`. -/
def emit_load_local (ch : Chunk) (index : Nat) (line : Nat) : Chunk :=
  emit_u16 (emit ch .load_local line) index line

/-- `Compiler._emit_store_local`. -/
def emit_store_local (ch : Chunk) (index : Nat) (line : Nat) : Chunk :=
  emit_u16 (emit ch .store_local line) index line

/-- `Compiler._emit_load_global`. -/
def emit_load_global (ch : Chunk) (index : Nat) (line : Nat) : Chunk :=
  emit_u16 (emit ch .load_global line) index line

/-- `Compiler._emit_store_global`. -/
def emit_store_global (ch : Chunk) (index : Nat) (line : Nat) : Chunk :=
  emit_u16 (emit ch .store_global line) index line

/-- `Compiler._emit_call`: opcode, 16-bit function index, raw argc byte. -/
def emit_call (ch : Chunk) (func_index : Nat) (argc : Nat) (line : Nat) : Chunk :=
  (emit_u16 (emit ch .call line) func_index line).write argc line

/-- `Compiler._emit_jump`: opcode plus a two-byte zero placeholder; returns
the placeholder's offset. -/
def emit_jump (ch : Chunk) (opcode : OpCode) (line : Nat) : Chunk × Nat :=
  let ch1 := emit ch opcode line
  let offset := ch1.code.length
  ((ch1.write 0 line).write 0 line, offset)

/-- `Compiler._patch_jump`: overwrite the placeholder with the current
offset. -/
def patch_jump (ch : Chunk) (offset : Nat) : Chunk :=
  ch.patch_u16 offset ch.code.length

/-- `Compiler._emit_loop`: unconditional jump back to `loop_start`. -/
def emit_loop (ch : Chunk) (loop_start : Nat) (line : Nat) : Chunk :=
  emit_u16 (emit ch .jmp line) loop_start line

/-- The `op_map` of `_compile_expr`'s `BinaryExpr` branch. -/
def BinOp.opcode : BinOp → OpCode
  | .plus => .add
  | .minus => .sub
  | .star => .mul
  | .slash => .div

mutual

/-- `Compiler._compile_expr`. -/
def compile_expr (ch : Chunk) : RExpr → Chunk
  | .intLit line value =>
    let (ch1, index) := ch.add_constant value
    emit_u16 (emit ch1 .push_const line) index line
  | .varRef line binding =>
    if binding.isLocal then emit_load_local ch binding.index line
    else emit_load_global ch binding.index line
  | .assign line binding value =>
    let ch1 := compile_expr ch value
    if binding.isLocal then
      emit_load_local (emit_store_local ch1 binding.index line) binding.index line
    else
      emit_load_global (emit_store_global ch1 binding.index line) binding.index line
  | .binary line left op right =>
    let ch1 := compile_expr ch left
    let ch2 := compile_expr ch1 right
    emit ch2 op.opcode line
  | .call line targetIndex args =>
    let ch1 := compile_exprs ch args
    emit_call ch1 targetIndex args.length line

/-- The `for argument in expr.arguments` loop of the `CallExpr` branch. -/
def compile_exprs (ch : Chunk) : List RExpr → Chunk
  | [] => ch
  | e :: es => compile_exprs (compile_expr ch e) es

end

mutual

/-- `Compiler._compile_stmt` (with `_compile_var_decl`, `_compile_if`,
`_compile_while` inlined as match arms). -/
def compile_stmt (ch : Chunk) : RStmt → Chunk
  | .varDecl line binding init =>
    let ch1 := compile_expr ch init
    if binding.isLocal then emit_store_local ch1 binding.index line
    else emit_store_global ch1 binding.index line
  | .blockStmt _ stmts => compile_stmts ch stmts
  | .exprStmt line e => emit (compile_expr ch e) .pop line
  | .printStmt line e => emit (compile_expr ch e) .print line
  | .ifStmt line cond thenBranch elseBranch =>
    let ch1 := compile_expr ch cond
    let (ch2, jump_else) := emit_jump ch1 .jmp_if_false line
    let ch3 := compile_stmt ch2 thenBranch
    match elseBranch with
    | some els =>
      let (ch4, jump_end) := emit_jump ch3 .jmp line
      let ch5 := patch_jump ch4 jump_else
      let ch6 := compile_stmt ch5 els
      patch_jump ch6 jump_end
    | none => patch_jump ch3 jump_else
  | .whileStmt line cond body =>
    let loop_start := ch.code.length
    let ch1 := compile_expr ch cond
    let (ch2, exit_jump) := emit_jump ch1 .jmp_if_false line
    let ch3 := compile_stmt ch2 body
    let ch4 := emit_loop ch3 loop_start line
    patch_jump ch4 exit_jump
  | .returnStmt line value => emit (compile_expr ch value) .ret line

/-- `Compiler._compile_block`: statements in order. -/
def compile_stmts (ch : Chunk) : List RStmt → Chunk
  | [] => ch
  | s :: ss => compile_stmts (compile_stmt ch s) ss

end

/-- `Compiler._compile_function`: a fresh chunk per user function. -/
def compile_function (f : RFunction) : BytecodeFunction :=
  { name := f.name
    chunk := compile_stmts Chunk.empty f.rbody
    arity := f.arity
    num_locals := f.max_locals }

/-- The global-initialization prefix of the entry chunk: compile each
global's initializer and store it to the global's slot, in declaration
order. -/
def compile_global_inits (globals : List RGlobal) : Chunk :=
  globals.foldl
    (fun ch g => emit_store_global (compile_expr ch g.rinit) g.binding.index g.decl.line)
    Chunk.empty

/-- `Compiler._compile_entry_function`: initialize globals, call `main`
with `len(main_symbol.decl.params)` as the argument-count byte, pop the
return value, halt.  The `RuntimeError` on a missing `main` becomes
`Except.error`. -/
def compile_entry_function (resolved : ResolvedProgram) : Except String BytecodeFunction :=
  let ch := compile_global_inits resolved.globals
  match resolved.functions.find? (fun f => f.name == "main") with
  | none => .error ("entry point \x27main\x27 is missing")
  | some main_symbol =>
    let line := main_symbol.decl.line
    let ch1 := emit_call ch main_symbol.index main_symbol.decl.params.length line
    let ch2 := emit (emit ch1 .pop line) .halt line
    .ok { name := "<entry>", chunk := ch2, arity := 0, num_locals := 0 }

/-- `Compiler.compile`: user functions in symbol order (the resolver
assigns `symbol.index` positionally, so `self.functions[symbol.index] =
compiled` over the symbol list is a `map`), then the synthesized entry
function appended, all-zero initial globals, and the entry index pointing
at the appended entry. -/
def compile (resolved : ResolvedProgram) : Except String BytecodeProgram := do
  let fns := resolved.functions.map compile_function
  let entry_fn ← compile_entry_function resolved
  .ok { functions := fns ++ [entry_fn]
        globals := resolved.globals.map (fun _ => 0)
        entry_index := fns.length }

/-!
Disassembler (disasm.py).  The decode loop advances its offset by at least
one byte per iteration, so running it with `chunk.code.length` units of
fuel is exhaustive; the fuel only makes the recursion structural.
Unchecked list subscripts (`chunk.lines[offset]`, `chunk.constants[i]`,
the argc byte) fault with `IndexError`, and `OpCode(byte)` with
`ValueError`, exactly as in Python.
-/

/-- A fault raised while running or disassembling bytecode. -/
inductive VMFault where
  | vmError (message : String)
  | indexError
  | valueError
deriving DecidableEq, Repr

/-- Left-pad `s` to `width` with `c` (Python `f"{s:>w}"` / `f"{n:0w}"`). -/
def padLeft (c : Char) (width : Nat) (s : String) : String :=
  String.mk (List.replicate (width - s.length) c) ++ s

/-- Right-pad `s` to `width` with spaces (Python `f"{s:<w}"`). -/
def padRight (width : Nat) (s : String) : String :=
  s ++ String.mk (List.replicate (width - s.length) ' ')

/-- disasm.py `_read_u16`: two-byte big-endian read at `offset`. -/
def disasm_read_u16 (chunk : Chunk) (offset : Nat) : Except VMFault (Nat × Nat) :=
  match chunk.code[offset]?, chunk.code[offset + 1]? with
  | some hi, some lo => .ok ((hi <<< 8) ||| lo, offset + 2)
  | _, _ => .error .indexError

/-- The body of `_disassemble_function`'s while loop. -/
def disassemble_loop (program : BytecodeProgram) (chunk : Chunk) :
    Nat → Nat → Except VMFault (List String)
  | 0, _ => .ok []
  | fuel + 1, offset =>
    if h : offset < chunk.code.length then
      match chunk.lines[offset]? with
      | none => .error .indexError
      | some line =>
        match OpCode.ofByte? chunk.code[offset] with
        | none => .error .valueError
        | some opcode =>
          let offset1 := offset + 1
          match opcode with
          | .push_const => do
            let (const_index, offset2) ← disasm_read_u16 chunk offset1
            match chunk.constants[const_index]? with
            | none => .error .indexError
            | some value => do
              let text := padLeft '0' 4 (toString (offset2 - 3)) ++ " line "
                ++ padLeft ' ' 3 (toString line) ++ " "
                ++ padRight 13 opcode.memberName ++ " #" ++ toString const_index
                ++ " (" ++ toString value ++ ")"
              let rest ← disassemble_loop program chunk fuel offset2
              .ok (text :: rest)
          | .load_local | .store_local | .load_global | .store_global => do
            let (index, offset2) ← disasm_read_u16 chunk offset1
            let text := padLeft '0' 4 (toString (offset2 - 3)) ++ " line "
              ++ padLeft ' ' 3 (toString line) ++ " "
              ++ padRight 13 opcode.memberName ++ " " ++ toString index
            let rest ← disassemble_loop program chunk fuel offset2
            .ok (text :: rest)
          | .call => do
            let (func_index, offset2) ← disasm_read_u16 chunk offset1
            match chunk.code[offset2]? with
            | none => .error .indexError
            | some argc =>
              let offset3 := offset2 + 1
              let name :=
                match program.functions[func_index]? with
                | some fn => fn.name
                | none => "<invalid>"
              let text := padLeft '0' 4 (toString (offset3 - 4)) ++ " line "
                ++ padLeft ' ' 3 (toString line) ++ " CALL           "
                ++ toString func_index ++ " " ++ name ++ " argc=" ++ toString argc
              let rest ← disassemble_loop program chunk fuel offset3
              .ok (text :: rest)
          | .jmp | .jmp_if_false => do
            let (target, offset2) ← disasm_read_u16 chunk offset1
            let text := padLeft '0' 4 (toString (offset2 - 3)) ++ " line "
              ++ padLeft ' ' 3 (toString line) ++ " "
              ++ padRight 13 opcode.memberName ++ " -> " ++ padLeft '0' 4 (toString target)
            let rest ← disassemble_loop program chunk fuel offset2
            .ok (text :: rest)
          | _ => do
            let text := padLeft '0' 4 (toString (offset1 - 1)) ++ " line "
              ++ padLeft ' ' 3 (toString line) ++ " " ++ opcode.memberName
            let rest ← disassemble_loop program chunk fuel offset1
            .ok (text :: rest)
    else .ok []

/-- disasm.py `_disassemble_function`. -/
def disassemble_function (program : BytecodeProgram) (function : BytecodeFunction) :
    Except VMFault (List String) :=
  disassemble_loop program function.chunk function.chunk.code.length 0

/-- disasm.py `disassemble_program`: per-function header plus decoded
lines, joined with newlines. -/
def disassemble_program (program : BytecodeProgram) : Except VMFault String := do
  let parts ← program.functions.enum.mapM (fun pair => do
    let body ← disassemble_function program pair.2
    pure (("== fn " ++ toString pair.1 ++ " " ++ pair.2.name ++ " ==") :: body))
  .ok (String.intercalate "\n" parts.flatten)

/-!
Virtual machine (vm.py).  The operand stack is kept in Python list order
(index 0 is the bottom; `append`/`pop` act on the end).  The frame stack
keeps Python's `frames[-1]` at the HEAD of the list.  One iteration of the
`while self.frames:` loop is `VM.step`; `VM.run` adds the initial call to
the entry function and the loop (driven by fuel, which only bounds the
number of iterations).
-/

/-- vm.py `CallFrame`. -/
structure CallFrame where
  function : BytecodeFunction
  ip : Nat
  stack_base : Nat
deriving DecidableEq, Repr

/-- The state held by a `VM` instance: the program, the shared operand
stack, the frame stack, the global-slot array (a copy of
`program.globals`), and the accumulated output. -/
structure VMState where
  program : BytecodeProgram
  stack : List Int
  frames : List CallFrame
  globals : List Int
  output : List String
deriving DecidableEq, Repr

/-- `VM.__init__`: `self.globals = list(program.globals)` copies the
initial global values; stack, frames and output start empty. -/
def VM.init (program : BytecodeProgram) : VMState :=
  { program := program, stack := [], frames := [], globals := program.globals, output := [] }

/-- `self.stack.pop()`: take the last element; `IndexError` when empty. -/
def VM.popStack (stack : List Int) : Except VMFault (Int × List Int) :=
  match stack.getLast? with
  | some value => .ok (value, stack.dropLast)
  | none => .error .indexError

/-- `VM._read_u16`: reads `code[ip]` and `code[ip + 1]` (an out-of-range
read is an `IndexError`), then advances the instruction pointer by two. -/
def VM.read_u16 (fr : CallFrame) : Except VMFault (Nat × CallFrame) :=
  let code := fr.function.chunk.code
  match code[fr.ip]?, code[fr.ip + 1]? with
  | some hi, some lo => .ok ((hi <<< 8) ||| lo, { fr with ip := fr.ip + 2 })
  | _, _ => .error .indexError

/-- `VM._read_byte`. -/
def VM.read_byte (fr : CallFrame) : Except VMFault (Nat × CallFrame) :=
  match fr.function.chunk.code[fr.ip]? with
  | some value => .ok (value, { fr with ip := fr.ip + 1 })
  | none => .error .indexError

/-- `VM._safe_div`: Python's floor division `a // b` is `Int.fdiv`; a zero
divisor raises `VMRuntimeError("division by zero")`. -/
def VM.safe_div (a b : Int) : Except VMFault Int :=
  if b = 0 then .error (.vmError ("division by zero"))
  else .ok (Int.fdiv a b)

/-- `VM._call_function`: bounds-check the target index, check the arity,
compute the frame base (the underflow check is Python's `stack_base < 0`),
pad the stack with zero-valued slots up to `num_locals`, push the frame.
A `Nat` index cannot be negative, matching every index the interpreter
can produce (operands are decoded from unsigned bytes). -/
def VM.call_function (s : VMState) (func_index : Nat) (argc : Nat) :
    Except VMFault VMState :=
  match s.program.functions[func_index]? with
  | none => .error (.vmError ("call target " ++ toString func_index ++ " out of range"))
  | some function =>
    if argc ≠ function.arity then
      .error (.vmError ("function " ++ q function.name ++ " arity mismatch: expected "
        ++ toString function.arity ++ ", got " ++ toString argc))
    else if s.stack.length < argc then
      .error (.vmError ("call stack underflow"))
    else
      let stack_base := s.stack.length - argc
      let needed := stack_base + function.num_locals
      .ok { s with
            stack := s.stack ++ List.replicate (needed - s.stack.length) 0
            frames := ⟨function, 0, stack_base⟩ :: s.frames }

/-- One iteration outcome of the `while self.frames:` loop. -/
inductive StepResult where
  | next (s : VMState)
  | halted (s : VMState)
  | fault (e : VMFault) (s : VMState)
deriving DecidableEq, Repr

/-- `VM._binary`: pop `b`, pop `a`, push `op(a, b)`; the faulting states
record the pops that already happened when the exception is raised. -/
def VM.binary (s : VMState) (op : Int → Int → Except VMFault Int) : StepResult :=
  match VM.popStack s.stack with
  | .error e => .fault e s
  | .ok (b, st1) =>
    match VM.popStack st1 with
    | .error e => .fault e { s with stack := st1 }
    | .ok (a, st2) =>
      match op a b with
      | .error e => .fault e { s with stack := st2 }
      | .ok value => .next { s with stack := st2 ++ [value] }

/-- One iteration of `VM.run`'s fetch-decode-execute loop, for a state
whose frame stack is non-empty.  (On an empty frame stack the loop guard
has already exited; `halted` is returned so the function is total.) -/
def VM.step (s : VMState) : StepResult :=
  match s.frames with
  | [] => .halted s
  | frame :: rest =>
    let chunk := frame.function.chunk
    if hip : frame.ip < chunk.code.length then
      match OpCode.ofByte? chunk.code[frame.ip] with
      | none => .fault .valueError s
      | some opcode =>
        let fr := { frame with ip := frame.ip + 1 }
        let s1 := { s with frames := fr :: rest }
        match opcode with
        | .push_const =>
          match VM.read_u16 fr with
          | .error e => .fault e s1
          | .ok (const_index, fr2) =>
            let s2 := { s with frames := fr2 :: rest }
            match chunk.constants[const_index]? with
            | none => .fault .indexError s2
            | some value => .next { s2 with stack := s2.stack ++ [value] }
        | .load_local =>
          match VM.read_u16 fr with
          | .error e => .fault e s1
          | .ok (index, fr2) =>
            let s2 := { s with frames := fr2 :: rest }
            let slot := frame.stack_base + index
            match s2.stack[slot]? with
            | none => .fault (.vmError ("local load out of range")) s2
            | some value => .next { s2 with stack := s2.stack ++ [value] }
        | .store_local =>
          match VM.read_u16 fr with
          | .error e => .fault e s1
          | .ok (index, fr2) =>
            let s2 := { s with frames := fr2 :: rest }
            match VM.popStack s2.stack with
            | .error e => .fault e s2
            | .ok (value, st1) =>
              let slot := frame.stack_base + index
              if slot < st1.length then
                .next { s2 with stack := st1.set slot value }
              else .fault (.vmError ("local store out of range")) { s2 with stack := st1 }
        | .load_global =>
          match VM.read_u16 fr with
          | .error e => .fault e s1
          | .ok (index, fr2) =>
            let s2 := { s with frames := fr2 :: rest }
            match s2.globals[index]? with
            | none => .fault .indexError s2
            | some value => .next { s2 with stack := s2.stack ++ [value] }
        | .store_global =>
          match VM.read_u16 fr with
          | .error e => .fault e s1
          | .ok (index, fr2) =>
            let s2 := { s with frames := fr2 :: rest }
            match VM.popStack s2.stack with
            | .error e => .fault e s2
            | .ok (value, st1) =>
              if index < s2.globals.length then
                .next { s2 with stack := st1, globals := s2.globals.set index value }
              else .fault (.vmError ("global store out of range")) { s2 with stack := st1 }
        | .add => VM.binary s1 (fun a b => .ok (a + b))
        | .sub => VM.binary s1 (fun a b => .ok (a - b))
        | .mul => VM.binary s1 (fun a b => .ok (a * b))
        | .div => VM.binary s1 VM.safe_div
        | .jmp =>
          match VM.read_u16 fr with
          | .error e => .fault e s1
          | .ok (target, fr2) => .next { s with frames := { fr2 with ip := target } :: rest }
        | .jmp_if_false =>
          match VM.read_u16 fr with
          | .error e => .fault e s1
          | .ok (target, fr2) =>
            let s2 := { s with frames := fr2 :: rest }
            match VM.popStack s2.stack with
            | .error e => .fault e s2
            | .ok (value, st1) =>
              if value = 0 then .next { s2 with stack := st1, frames := { fr2 with ip := target } :: rest }
              else .next { s2 with stack := st1 }
        | .call =>
          match VM.read_u16 fr with
          | .error e => .fault e s1
          | .ok (func_index, fr2) =>
            match VM.read_byte fr2 with
            | .error e => .fault e { s with frames := fr2 :: rest }
            | .ok (argc, fr3) =>
              let s3 := { s with frames := fr3 :: rest }
              match VM.call_function s3 func_index argc with
              | .error e => .fault e s3
              | .ok s4 => .next s4
        | .ret =>
          match s1.frames with
          | [] => .fault (.vmError ("return with empty call stack")) s1
          | top :: remaining =>
            match VM.popStack s1.stack with
            | .error e => .fault e { s1 with frames := remaining }
            | .ok (value, st1) =>
              let st2 := st1.take top.stack_base ++ [value]
              if remaining.isEmpty then
                .next { s1 with frames := remaining, stack := [] }
              else
                .next { s1 with frames := remaining, stack := st2 }
        | .print =>
          match VM.popStack s1.stack with
          | .error e => .fault e s1
          | .ok (value, st1) =>
            .next { s1 with stack := st1, output := s1.output ++ [toString value] }
        | .pop =>
          match VM.popStack s1.stack with
          | .error e => .fault e s1
          | .ok (_, st1) => .next { s1 with stack := st1 }
        | .halt => .halted { s1 with frames := [] }
    else .fault (.vmError ("instruction pointer out of bounds")) s

/-- Outcome of `VM.run`: the loop exited (`finished`, whose state's
`output` is the returned list), an exception propagated (`fault`), or the
supplied fuel ran out with the machine still running. -/
inductive RunResult where
  | finished (s : VMState)
  | fault (e : VMFault) (s : VMState)
  | out_of_fuel (s : VMState)
deriving DecidableEq, Repr

/-- The `while self.frames:` loop of `VM.run`. -/
def VM.run_loop : Nat → VMState → RunResult
  | 0, s => .out_of_fuel s
  | fuel + 1, s =>
    if s.frames.isEmpty then .finished s
    else
      match VM.step s with
      | .next s1 => VM.run_loop fuel s1
      | .halted s1 => .finished s1
      | .fault e s1 => .fault e s1

/-- `VM(program).run()`: push the initial frame for the entry function
with zero arguments, then loop. -/
def VM.run (program : BytecodeProgram) (fuel : Nat) : RunResult :=
  let s0 := VM.init program
  match VM.call_function s0 program.entry_index 0 with
  | .error e => .fault e s0
  | .ok s1 => VM.run_loop fuel s1

/-- The state carried by a `RunResult`, whatever the outcome. -/
def RunResult.state : RunResult → VMState
  | .finished s => s
  | .fault _ s => s
  | .out_of_fuel s => s

/-- The fault carried by a `RunResult`, when there is one. -/
def RunResult.faultKind? : RunResult → Option VMFault
  | .fault e _ => some e
  | _ => none

/-- The state carried by a `StepResult`. -/
def StepResult.state : StepResult → VMState
  | .next s => s
  | .halted s => s
  | .fault _ s => s

/-- `Compiler.from_program`: resolve then compile (cli.py `compile_text`
without the front end); a semantic error propagates as the error message. -/
def from_program (program : Program) : Except String BytecodeProgram :=
  match resolve program with
  | .error e => .error e.message
  | .ok resolved => compile resolved

/-- cli.py `cmd_run` essence: compile the program and run it, returning
the printed output on a clean finish. -/
def run_output (program : Program) (fuel : Nat) : Option (List String) :=
  match from_program program with
  | .error _ => none
  | .ok bp =>
    match VM.run bp fuel with
    | .finished s => some s.output
    | _ => none

/-!
Spec-side definitions.  These two follow the CLAIM's words, not the
source, and exist only to be compared against the embedded code.
-/

/-- Spec-modelled (claim C9 wording): `w`-bit two's-complement wrap-around
of an integer. -/
def specWrap (w : Nat) (x : Int) : Int :=
  (x + 2 ^ (w - 1)) % 2 ^ w - 2 ^ (w - 1)

/-- Spec-modelled (claim C9 wording): "the ADD opcode pushes the result
computed with fixed-width wrap-around at width `w`", stated against the
embedded VM step function. -/
def specAddWrapsAtWidth (w : Nat) : Prop :=
  ∀ (program : BytecodeProgram) (fn : BytecodeFunction) (ip base : Nat)
    (rest : List CallFrame) (stack0 : List Int) (globals : List Int)
    (output : List String) (a b : Int),
    fn.chunk.code[ip]? = some OpCode.add.toByte →
    VM.step ⟨program, stack0 ++ [a, b], ⟨fn, ip, base⟩ :: rest, globals, output⟩ =
      .next ⟨program, stack0 ++ [specWrap w (a + b)], ⟨fn, ip + 1, base⟩ :: rest, globals, output⟩

/-- Spec-modelled (claim C3 wording): a statement "guarantees return" iff
it is a return, or a block whose last statement guarantees return, or an
`if` with both branches present and each branch guaranteeing return. -/
inductive SpecGuarantees : Stmt → Prop where
  | ret (line : Nat) (value : Expr) : SpecGuarantees (.returnStmt line value)
  | blockLast (line : Nat) (stmts : List Stmt) (s : Stmt) :
      stmts.getLast? = some s → SpecGuarantees s → SpecGuarantees (.blockStmt line stmts)
  | ifBoth (line : Nat) (cond : Expr) (thenBranch elseBranch : Stmt) :
      SpecGuarantees thenBranch → SpecGuarantees elseBranch →
      SpecGuarantees (.ifStmt line cond thenBranch (some elseBranch))

/-!
Concrete demonstration programs used by witnesses and counterexamples,
with their resolver / compiler outputs extracted by evaluation.
-/

/-- `fn main() { var x = 0; print (x = 5); return 0; }`. -/
def demoAssignProgram : Program :=
  [.fn ⟨1, "main", [],
    [.varDecl 2 "x" true (.intLit 2 0),
     .printStmt 3 (.assign 3 "x" (.intLit 3 5)),
     .returnStmt 4 (.intLit 4 0)]⟩]

/-- `var g = 1; fn main(a, b) { var x = g; { var y = 2; y = y + x; } return 0; }`:
exercises globals, parameters, and a nested block for the slot claims. -/
def demoSlotsProgram : Program :=
  [.var ⟨1, "g", true, .intLit 1 1⟩,
   .fn ⟨2, "main", [⟨"a", 2⟩, ⟨"b", 2⟩],
    [.varDecl 3 "x" true (.varRef 3 "g"),
     .blockStmt 4
       [.varDecl 4 "y" true (.intLit 4 2),
        .exprStmt 5 (.assign 5 "y" (.binary 5 (.varRef 5 "y") .plus (.varRef 5 "x")))],
     .returnStmt 6 (.intLit 6 0)]⟩]

/-- `fn main(p) { return 0; }`: a `main` declared with one parameter. -/
def mainWithParamProgram : Program :=
  [.fn ⟨1, "main", [⟨"p", 1⟩], [.returnStmt 2 (.intLit 2 0)]⟩]

/-- A junk `FunctionDecl`, used only as an unreachable match fallback. -/
def junkDecl : FunctionDecl := ⟨0, "", [], []⟩

/-- The resolver output for `demoAssignProgram`. -/
def demoAssignResolved : ResolvedProgram :=
  match resolve demoAssignProgram with
  | .ok r => r
  | .error _ => ⟨[], []⟩

/-- The compiled `demoAssignProgram`. -/
def demoAssignCompiled : BytecodeProgram :=
  match from_program demoAssignProgram with
  | .ok bp => bp
  | .error _ => ⟨[], [], 0⟩

/-- The resolver output for `demoSlotsProgram`. -/
def demoSlotsResolved : ResolvedProgram :=
  match resolve demoSlotsProgram with
  | .ok r => r
  | .error _ => ⟨[], []⟩

/-- The compiled `demoSlotsProgram`. -/
def demoSlotsCompiled : BytecodeProgram :=
  match from_program demoSlotsProgram with
  | .ok bp => bp
  | .error _ => ⟨[], [], 0⟩

/-- The compiled `mainWithParamProgram`. -/
def mainWithParamCompiled : BytecodeProgram :=
  match from_program mainWithParamProgram with
  | .ok bp => bp
  | .error _ => ⟨[], [], 0⟩

/-- The resolver output for `mainWithParamProgram`. -/
def mainWithParamResolved : ResolvedProgram :=
  match resolve mainWithParamProgram with
  | .ok r => r
  | .error _ => ⟨[], []⟩

/-- The resolved `main` of `mainWithParamProgram`. -/
def mainWithParamMain : RFunction :=
  match mainWithParamResolved.functions with
  | f :: _ => f
  | [] => ⟨"", 0, 0, ⟨0, "", [], []⟩, [], 0, []⟩

/-- The phase-1 output for `demoAssignProgram`. -/
def demoAssignTop : TopLevel :=
  match declare_top_level demoAssignProgram ⟨[], [], []⟩ with
  | .ok top => top
  | .error _ => ⟨[], [], []⟩

/-- The `main` symbol of `demoAssignProgram`. -/
def demoAssignMainSymbol : FunctionSymbol :=
  match demoAssignTop.functions with
  | f :: _ => f
  | [] => ⟨"", 0, 0, junkDecl⟩

/-- The resolved `main` of `demoAssignProgram`. -/
def demoAssignMainResolved : RFunction :=
  match resolve_function demoAssignTop.functions demoAssignTop.global_scope demoAssignMainSymbol with
  | .ok rf => rf
  | .error _ => ⟨"", 0, 0, junkDecl, [], 0, []⟩

/-- A handwritten program whose entry loads global slot 0 while the global
array is empty (`LOAD_GLOBAL 0` over no globals). -/
def oobGlobalLoadProgram : BytecodeProgram :=
  ⟨[⟨"<entry>", ⟨[3, 0, 0], [1, 1, 1], []⟩, 0, 0⟩], [], 0⟩

/-- A handwritten program whose entry pushes a constant and stores it to
global slot 0 while the global array is empty (`STORE_GLOBAL 0`). -/
def oobGlobalStoreProgram : BytecodeProgram :=
  ⟨[⟨"<entry>", ⟨[0, 0, 0, 4, 0, 0], [1, 1, 1, 1, 1, 1], [7]⟩, 0, 0⟩], [], 0⟩

/-- A handwritten program whose entry begins with the byte 99, which is
not an `OpCode` member. -/
def unknownOpcodeProgram : BytecodeProgram :=
  ⟨[⟨"<entry>", ⟨[99], [1], []⟩, 0, 0⟩], [], 0⟩

/-- A chunk has its line table parallel to its byte stream. -/
def linesParallel (ch : Chunk) : Prop :=
  ch.lines.length = ch.code.length

/-- Density invariant on a function context: the next free index is the
number of allocated locals and every allocated local sits at the slot
equal to its list position. -/
def CtxInv (ctx : FnCtx) : Prop :=
  ctx.next_local_index = ctx.locals.length ∧
  ∀ j (hj : j < ctx.locals.length), (ctx.locals.get ⟨j, hj⟩).index = j

/-- How one resolution step may change a function context: it only ever
appends locals, and it preserves the density invariant. -/
def CtxStep (ctx ctx' : FnCtx) : Prop :=
  (∃ suffix, ctx'.locals = ctx.locals ++ suffix) ∧ (CtxInv ctx → CtxInv ctx')

/-!
Theorems.  Shared helper lemmas come first, then one theorem per claim
(with its witness or counterexample where required).
-/

/-- Chunk-level serialization round trip. -/
theorem chunk_roundtrip (c : Chunk) : Chunk.from_dict (Chunk.to_dict c) = c := by
  cases c
  rfl

/-- Function-level serialization round trip. -/
theorem function_roundtrip (fn : BytecodeFunction) :
    BytecodeFunction.from_dict (BytecodeFunction.to_dict fn) = fn := by
  cases fn
  simp [BytecodeFunction.from_dict, BytecodeFunction.to_dict, chunk_roundtrip]

/-- Program-level serialization round trip. -/
theorem program_roundtrip (p : BytecodeProgram) :
    BytecodeProgram.from_dict (BytecodeProgram.to_dict p) = p := by
  cases p
  simp [BytecodeProgram.from_dict, BytecodeProgram.to_dict, List.map_map,
    Function.comp_def, function_roundtrip]

/-- C2: decoding the encoding of any `BytecodeProgram` reproduces the
program exactly — byte-identical code, identical line tables, identical
constant pools (duplicates and order included, since the pool list is
reproduced as a whole), identical globals, the same entry index — and the
round-tripped copy disassembles to identical text. -/
theorem serialization_roundtrip (p : BytecodeProgram) :
    BytecodeProgram.from_dict (BytecodeProgram.to_dict p) = p ∧
    (BytecodeProgram.from_dict (BytecodeProgram.to_dict p)).functions.map
      (fun fn => fn.chunk.code) = p.functions.map (fun fn => fn.chunk.code) ∧
    (BytecodeProgram.from_dict (BytecodeProgram.to_dict p)).functions.map
      (fun fn => fn.chunk.lines) = p.functions.map (fun fn => fn.chunk.lines) ∧
    (BytecodeProgram.from_dict (BytecodeProgram.to_dict p)).functions.map
      (fun fn => fn.chunk.constants) = p.functions.map (fun fn => fn.chunk.constants) ∧
    (BytecodeProgram.from_dict (BytecodeProgram.to_dict p)).globals = p.globals ∧
    (BytecodeProgram.from_dict (BytecodeProgram.to_dict p)).entry_index = p.entry_index ∧
    disassemble_program (BytecodeProgram.from_dict (BytecodeProgram.to_dict p)) =
      disassemble_program p := by
  have h := program_roundtrip p
  rw [h]
  exact ⟨rfl, rfl, rfl, rfl, rfl, rfl, rfl⟩

/-- Decoding a big-endian byte pair: when the low byte is below 256 the
bitwise decode is positional arithmetic. -/
theorem u16_decode (hi lo : Nat) (hlo : lo < 256) : (hi <<< 8) ||| lo = 256 * hi + lo := by
  have h := Nat.mul_add_lt_is_or (i := 8) (b := lo) (by omega) hi
  rw [Nat.shiftLeft_eq, Nat.mul_comm]
  omega

/-- Reading back the two bytes written by `write_u16` recovers any value
below 2^16. -/
theorem u16_roundtrip (m : Nat) (hm : m < 65536) :
    ((m / 256 % 256) <<< 8) ||| (m % 256) = m := by
  rw [u16_decode _ _ (by omega)]
  omega

/-- Flooring division is invariant under negating both operands. -/
theorem fdiv_neg_neg : ∀ (a b : Int), Int.fdiv a b = Int.fdiv (-a) (-b)
  | .ofNat 0, .ofNat _ => by simp
  | .ofNat 0, .negSucc _ => by simp
  | .ofNat (_ + 1), .ofNat 0 => by simp
  | .ofNat (_ + 1), .ofNat (_ + 1) => rfl
  | .ofNat (_ + 1), .negSucc _ => rfl
  | .negSucc _, .ofNat 0 => by simp
  | .negSucc _, .ofNat (_ + 1) => rfl
  | .negSucc _, .negSucc _ => rfl

/-- Positive-divisor case of the floor characterization of `Int.fdiv`. -/
theorem fdiv_eq_floor_pos (a b : Int) (hb : 0 < b) :
    Int.fdiv a b = ⌊(a : ℚ) / (b : ℚ)⌋ := by
  have h2 : (b.toNat : Int) = b := Int.toNat_of_nonneg (by omega)
  calc Int.fdiv a b = a / b := Int.fdiv_eq_ediv _ (by omega)
    _ = a / (b.toNat : ℤ) := by rw [h2]
    _ = ⌊(a : ℚ) / ((b.toNat : Nat) : ℚ)⌋ := (Rat.floor_intCast_div_natCast a b.toNat).symm
    _ = ⌊(a : ℚ) / (b : ℚ)⌋ := by
        rw [show ((b.toNat : Nat) : ℚ) = (b : ℚ) from by exact_mod_cast h2]

/-- `Int.fdiv` (Python's `//`) is the mathematical floor of the exact
rational quotient. -/
theorem fdiv_eq_floor (a b : Int) (hb : b ≠ 0) :
    Int.fdiv a b = ⌊(a : ℚ) / (b : ℚ)⌋ := by
  rcases lt_or_gt_of_ne hb with hneg | hpos
  · rw [fdiv_neg_neg, fdiv_eq_floor_pos (-a) (-b) (by omega)]
    congr 1
    push_cast
    rw [neg_div_neg_eq]
  · exact fdiv_eq_floor_pos a b hpos

/-- Popping a Python list takes its last element. -/
theorem popStack_concat (l : List Int) (x : Int) : VM.popStack (l ++ [x]) = .ok (x, l) := by
  simp [VM.popStack]

/-- Executing ADD pops `b` (the top), then `a`, and pushes the exact
integer sum `a + b`. -/
theorem step_add (program : BytecodeProgram) (fn : BytecodeFunction) (ip base : Nat)
    (rest : List CallFrame) (stack0 globals : List Int) (output : List String) (a b : Int)
    (hcode : fn.chunk.code[ip]? = some 5) :
    VM.step ⟨program, stack0 ++ [a, b], ⟨fn, ip, base⟩ :: rest, globals, output⟩ =
      .next ⟨program, stack0 ++ [a + b], ⟨fn, ip + 1, base⟩ :: rest, globals, output⟩ := by
  obtain ⟨hip, hbyte⟩ := List.getElem?_eq_some.mp hcode
  have hsplit : stack0 ++ [a, b] = (stack0 ++ [a]) ++ [b] := by simp
  unfold VM.step
  dsimp only
  rw [dif_pos hip]
  simp only [hbyte, OpCode.ofByte?, VM.binary, hsplit, popStack_concat]

/-- Executing SUB pops `b` (the top), then `a`, and pushes the exact
integer difference `a - b`. -/
theorem step_sub (program : BytecodeProgram) (fn : BytecodeFunction) (ip base : Nat)
    (rest : List CallFrame) (stack0 globals : List Int) (output : List String) (a b : Int)
    (hcode : fn.chunk.code[ip]? = some 6) :
    VM.step ⟨program, stack0 ++ [a, b], ⟨fn, ip, base⟩ :: rest, globals, output⟩ =
      .next ⟨program, stack0 ++ [a - b], ⟨fn, ip + 1, base⟩ :: rest, globals, output⟩ := by
  obtain ⟨hip, hbyte⟩ := List.getElem?_eq_some.mp hcode
  have hsplit : stack0 ++ [a, b] = (stack0 ++ [a]) ++ [b] := by simp
  unfold VM.step
  dsimp only
  rw [dif_pos hip]
  simp only [hbyte, OpCode.ofByte?, VM.binary, hsplit, popStack_concat]

/-- Executing MUL pops `b` (the top), then `a`, and pushes the exact
integer product `a * b`. -/
theorem step_mul (program : BytecodeProgram) (fn : BytecodeFunction) (ip base : Nat)
    (rest : List CallFrame) (stack0 globals : List Int) (output : List String) (a b : Int)
    (hcode : fn.chunk.code[ip]? = some 7) :
    VM.step ⟨program, stack0 ++ [a, b], ⟨fn, ip, base⟩ :: rest, globals, output⟩ =
      .next ⟨program, stack0 ++ [a * b], ⟨fn, ip + 1, base⟩ :: rest, globals, output⟩ := by
  obtain ⟨hip, hbyte⟩ := List.getElem?_eq_some.mp hcode
  have hsplit : stack0 ++ [a, b] = (stack0 ++ [a]) ++ [b] := by simp
  unfold VM.step
  dsimp only
  rw [dif_pos hip]
  simp only [hbyte, OpCode.ofByte?, VM.binary, hsplit, popStack_concat]

/-- Executing DIV with a non-zero divisor pops `b` (the top), then `a`,
and pushes `Int.fdiv a b`. -/
theorem step_div (program : BytecodeProgram) (fn : BytecodeFunction) (ip base : Nat)
    (rest : List CallFrame) (stack0 globals : List Int) (output : List String) (a b : Int)
    (hcode : fn.chunk.code[ip]? = some 8) (hb : b ≠ 0) :
    VM.step ⟨program, stack0 ++ [a, b], ⟨fn, ip, base⟩ :: rest, globals, output⟩ =
      .next ⟨program, stack0 ++ [Int.fdiv a b], ⟨fn, ip + 1, base⟩ :: rest, globals, output⟩ := by
  obtain ⟨hip, hbyte⟩ := List.getElem?_eq_some.mp hcode
  have hsplit : stack0 ++ [a, b] = (stack0 ++ [a]) ++ [b] := by simp
  unfold VM.step
  dsimp only
  rw [dif_pos hip]
  simp only [hbyte, OpCode.ofByte?, VM.binary, hsplit, popStack_concat, VM.safe_div,
    if_neg hb]

/-- Executing DIV with a zero divisor pops both operands and faults with
`VMRuntimeError("division by zero")`; no result is pushed. -/
theorem step_div_zero (program : BytecodeProgram) (fn : BytecodeFunction) (ip base : Nat)
    (rest : List CallFrame) (stack0 globals : List Int) (output : List String) (a : Int)
    (hcode : fn.chunk.code[ip]? = some 8) :
    VM.step ⟨program, stack0 ++ [a, 0], ⟨fn, ip, base⟩ :: rest, globals, output⟩ =
      .fault (.vmError ("division by zero"))
        ⟨program, stack0, ⟨fn, ip + 1, base⟩ :: rest, globals, output⟩ := by
  obtain ⟨hip, hbyte⟩ := List.getElem?_eq_some.mp hcode
  have hsplit : stack0 ++ [a, (0 : Int)] = (stack0 ++ [a]) ++ [0] := by simp
  unfold VM.step
  dsimp only
  rw [dif_pos hip]
  have hsd : VM.safe_div a 0 = .error (.vmError ("division by zero")) := rfl
  simp only [hbyte, OpCode.ofByte?, VM.binary, hsplit, popStack_concat, hsd]

/-- C4: the DIV opcode pops `b` then `a`; with `b ≠ 0` it pushes
`Int.fdiv a b`, which equals the mathematical floor of the rational
quotient `a / b` (so it truncates toward negative infinity on negative
operands); with `b = 0` it faults with the fatal runtime error
`division by zero` and pushes no result (the two operands have been
popped, nothing replaces them). -/
theorem div_floor_semantics :
    (∀ (program : BytecodeProgram) (fn : BytecodeFunction) (ip base : Nat)
       (rest : List CallFrame) (stack0 globals : List Int) (output : List String) (a b : Int),
       fn.chunk.code[ip]? = some OpCode.div.toByte → b ≠ 0 →
       VM.step ⟨program, stack0 ++ [a, b], ⟨fn, ip, base⟩ :: rest, globals, output⟩ =
         .next ⟨program, stack0 ++ [Int.fdiv a b], ⟨fn, ip + 1, base⟩ :: rest, globals, output⟩) ∧
    (∀ (program : BytecodeProgram) (fn : BytecodeFunction) (ip base : Nat)
       (rest : List CallFrame) (stack0 globals : List Int) (output : List String) (a : Int),
       fn.chunk.code[ip]? = some OpCode.div.toByte →
       VM.step ⟨program, stack0 ++ [a, 0], ⟨fn, ip, base⟩ :: rest, globals, output⟩ =
         .fault (.vmError ("division by zero"))
           ⟨program, stack0, ⟨fn, ip + 1, base⟩ :: rest, globals, output⟩) ∧
    (∀ a b : Int, b ≠ 0 → Int.fdiv a b = ⌊(a : ℚ) / (b : ℚ)⌋) := by
  refine ⟨?_, ?_, fdiv_eq_floor⟩
  · intro program fn ip base rest stack0 globals output a b hcode hb
    exact step_div program fn ip base rest stack0 globals output a b hcode hb
  · intro program fn ip base rest stack0 globals output a hcode
    exact step_div_zero program fn ip base rest stack0 globals output a hcode

/-- Witness for C4 at a concrete machine state: dividing `-7` by `2`
pushes `-4` (floor, not the `-3` of truncation toward zero), and the same
state with divisor `0` faults. -/
theorem div_floor_semantics_witness :
    VM.step ⟨⟨[], [], 0⟩, [(-7 : Int), 2], ⟨⟨"f", ⟨[8], [1], []⟩, 0, 0⟩, 0, 0⟩ :: [], [], []⟩ =
      .next ⟨⟨[], [], 0⟩, [Int.fdiv (-7) 2], ⟨⟨"f", ⟨[8], [1], []⟩, 0, 0⟩, 0 + 1, 0⟩ :: [], [], []⟩ ∧
    VM.step ⟨⟨[], [], 0⟩, [(-7 : Int), 0], ⟨⟨"f", ⟨[8], [1], []⟩, 0, 0⟩, 0, 0⟩ :: [], [], []⟩ =
      .fault (.vmError ("division by zero"))
        ⟨⟨[], [], 0⟩, [], ⟨⟨"f", ⟨[8], [1], []⟩, 0, 0⟩, 0 + 1, 0⟩ :: [], [], []⟩ ∧
    Int.fdiv (-7) 2 = ⌊((-7 : Int) : ℚ) / ((2 : Int) : ℚ)⌋ ∧
    Int.fdiv (-7) 2 = -4 :=
  ⟨div_floor_semantics.1 ⟨[], [], 0⟩ ⟨"f", ⟨[8], [1], []⟩, 0, 0⟩ 0 0 [] [] [] []
      (-7) 2 (by rfl) (by decide),
   div_floor_semantics.2.1 ⟨[], [], 0⟩ ⟨"f", ⟨[8], [1], []⟩, 0, 0⟩ 0 0 [] [] [] []
      (-7) (by rfl),
   div_floor_semantics.2.2 (-7) 2 (by decide),
   by decide⟩

/-- C9 counterexample: there is NO fixed width `w` at which ADD wraps
around in two's complement; adding `2 ^ w` and `0` pushes `2 ^ w` itself,
not its `w`-bit wrap `0`. -/
theorem no_fixed_width_wraparound : ¬ ∃ w : Nat, 0 < w ∧ specAddWrapsAtWidth w := by
  rintro ⟨w, hw, h⟩
  have hpos : (0 : Int) < 2 ^ (w - 1) := pow_pos (by norm_num) _
  have hw1 : w - 1 + 1 = w := by omega
  have hlt : (2 : Int) ^ (w - 1) < 2 ^ w := by
    calc (2 : Int) ^ (w - 1) < 2 ^ (w - 1) * 2 := by linarith
      _ = 2 ^ w := by rw [← pow_succ, hw1]
  have hwrap : specWrap w ((2 : Int) ^ w + 0) = 0 := by
    unfold specWrap
    rw [add_zero, add_comm,
      show ((2 : Int) ^ (w - 1) + 2 ^ w) = 2 ^ (w - 1) + 2 ^ w * 1 by ring,
      Int.add_mul_emod_self_left, Int.emod_eq_of_lt (le_of_lt hpos) hlt]
    ring
  have h1 := h ⟨[], [], 0⟩ ⟨"f", ⟨[5], [1], []⟩, 0, 0⟩ 0 0 [] [] [] [] (2 ^ w) 0 (by rfl)
  have h2 := step_add ⟨[], [], 0⟩ ⟨"f", ⟨[5], [1], []⟩, 0, 0⟩ 0 0 [] [] [] [] (2 ^ w) 0 (by rfl)
  rw [h2] at h1
  have h3 : ([] : List Int) ++ [(2 : Int) ^ w + 0] = [] ++ [specWrap w ((2 : Int) ^ w + 0)] := by
    have := StepResult.next.inj h1
    exact congrArg VMState.stack this
  rw [hwrap] at h3
  simp at h3

/-- C9 (amended): ADD, SUB and MUL each pop two values (`b`, the top,
first, then `a`) and push one result computed with exact arbitrary-
precision integer arithmetic — `a + b`, `a - b`, `a * b` — with no
fixed-width wrap-around. -/
theorem arithmetic_exact_pop_order :
    (∀ (program : BytecodeProgram) (fn : BytecodeFunction) (ip base : Nat)
       (rest : List CallFrame) (stack0 globals : List Int) (output : List String) (a b : Int),
       fn.chunk.code[ip]? = some OpCode.add.toByte →
       VM.step ⟨program, stack0 ++ [a, b], ⟨fn, ip, base⟩ :: rest, globals, output⟩ =
         .next ⟨program, stack0 ++ [a + b], ⟨fn, ip + 1, base⟩ :: rest, globals, output⟩) ∧
    (∀ (program : BytecodeProgram) (fn : BytecodeFunction) (ip base : Nat)
       (rest : List CallFrame) (stack0 globals : List Int) (output : List String) (a b : Int),
       fn.chunk.code[ip]? = some OpCode.sub.toByte →
       VM.step ⟨program, stack0 ++ [a, b], ⟨fn, ip, base⟩ :: rest, globals, output⟩ =
         .next ⟨program, stack0 ++ [a - b], ⟨fn, ip + 1, base⟩ :: rest, globals, output⟩) ∧
    (∀ (program : BytecodeProgram) (fn : BytecodeFunction) (ip base : Nat)
       (rest : List CallFrame) (stack0 globals : List Int) (output : List String) (a b : Int),
       fn.chunk.code[ip]? = some OpCode.mul.toByte →
       VM.step ⟨program, stack0 ++ [a, b], ⟨fn, ip, base⟩ :: rest, globals, output⟩ =
         .next ⟨program, stack0 ++ [a * b], ⟨fn, ip + 1, base⟩ :: rest, globals, output⟩) :=
  ⟨fun program fn ip base rest stack0 globals output a b hcode =>
      step_add program fn ip base rest stack0 globals output a b hcode,
   fun program fn ip base rest stack0 globals output a b hcode =>
      step_sub program fn ip base rest stack0 globals output a b hcode,
   fun program fn ip base rest stack0 globals output a b hcode =>
      step_mul program fn ip base rest stack0 globals output a b hcode⟩

/-- Witness for the amended C9 at concrete states: `2 + 3` pushes `5`,
`2 - 3` pushes `-1`, `2 * 3` pushes `6`. -/
theorem arithmetic_exact_pop_order_witness :
    VM.step ⟨⟨[], [], 0⟩, [(2 : Int), 3], ⟨⟨"f", ⟨[5], [1], []⟩, 0, 0⟩, 0, 0⟩ :: [], [], []⟩ =
      .next ⟨⟨[], [], 0⟩, [(5 : Int)], ⟨⟨"f", ⟨[5], [1], []⟩, 0, 0⟩, 0 + 1, 0⟩ :: [], [], []⟩ ∧
    VM.step ⟨⟨[], [], 0⟩, [(2 : Int), 3], ⟨⟨"f", ⟨[6], [1], []⟩, 0, 0⟩, 0, 0⟩ :: [], [], []⟩ =
      .next ⟨⟨[], [], 0⟩, [(-1 : Int)], ⟨⟨"f", ⟨[6], [1], []⟩, 0, 0⟩, 0 + 1, 0⟩ :: [], [], []⟩ ∧
    VM.step ⟨⟨[], [], 0⟩, [(2 : Int), 3], ⟨⟨"f", ⟨[7], [1], []⟩, 0, 0⟩, 0, 0⟩ :: [], [], []⟩ =
      .next ⟨⟨[], [], 0⟩, [(6 : Int)], ⟨⟨"f", ⟨[7], [1], []⟩, 0, 0⟩, 0 + 1, 0⟩ :: [], [], []⟩ := by
  refine ⟨?_, ?_, ?_⟩
  · have h := arithmetic_exact_pop_order.1 ⟨[], [], 0⟩ ⟨"f", ⟨[5], [1], []⟩, 0, 0⟩ 0 0
      [] [] [] [] 2 3 (by rfl)
    simpa using h
  · have h := arithmetic_exact_pop_order.2.1 ⟨[], [], 0⟩ ⟨"f", ⟨[6], [1], []⟩, 0, 0⟩ 0 0
      [] [] [] [] 2 3 (by rfl)
    simpa using h
  · have h := arithmetic_exact_pop_order.2.2 ⟨[], [], 0⟩ ⟨"f", ⟨[7], [1], []⟩, 0, 0⟩ 0 0
      [] [] [] [] 2 3 (by rfl)
    simpa using h

/-- C5 (code bug): a global load with an out-of-range index aborts with a
bare Python `IndexError`, NOT the VM's fatal runtime error
(`VMRuntimeError`), because the `LOAD_GLOBAL` branch subscripts
`self.globals` without the bounds check every other slot access gets; an
out-of-range global STORE does raise the VM error, and an unrecognized
opcode byte aborts with `ValueError` (the dead `unknown opcode` branch is
preempted by the `OpCode(...)` conversion).  Execution still aborts
immediately in each case, with no output produced. -/
theorem load_global_unchecked :
    (VM.run oobGlobalLoadProgram 5).faultKind? = some VMFault.indexError ∧
    (∀ msg, VMFault.indexError ≠ VMFault.vmError msg) ∧
    (VM.run oobGlobalStoreProgram 5).faultKind? =
      some (VMFault.vmError ("global store out of range")) ∧
    (VM.run unknownOpcodeProgram 5).faultKind? = some VMFault.valueError ∧
    (VM.run oobGlobalLoadProgram 5).state.output = [] := by
  refine ⟨by rfl, ?_, by rfl, by rfl, by rfl⟩
  intro msg h
  exact VMFault.noConfusion h

/-- C8: compiled assignment emits, after the value and the store to the
resolved slot, a load of the same slot — for local bindings
`STORE_LOCAL i; LOAD_LOCAL i` (bytes `2,hi,lo,1,hi,lo`), for global
bindings `STORE_GLOBAL i; LOAD_GLOBAL i` (bytes `4,hi,lo,3,hi,lo`) — so
an assignment expression both mutates the binding and evaluates to the
assigned value; observably, `fn main() { var x = 0; print (x = 5);
return 0; }` prints `5`. -/
theorem assignment_store_then_load :
    (∀ (ch : Chunk) (line nline : Nat) (nm : String) (mu : Bool) (idx : Nat) (value : RExpr),
      (compile_expr ch (.assign line (.localBinding nm nline mu idx) value)).code =
        (compile_expr ch value).code ++
          [2, idx / 256 % 256, idx % 256, 1, idx / 256 % 256, idx % 256]) ∧
    (∀ (ch : Chunk) (line nline : Nat) (nm : String) (mu : Bool) (idx : Nat) (value : RExpr),
      (compile_expr ch (.assign line (.globalBinding nm nline mu idx) value)).code =
        (compile_expr ch value).code ++
          [4, idx / 256 % 256, idx % 256, 3, idx / 256 % 256, idx % 256]) ∧
    run_output demoAssignProgram 64 = some ["5"] := by
  refine ⟨?_, ?_, by rfl⟩
  · intro ch line nline nm mu idx value
    simp [compile_expr, VarBinding.isLocal, VarBinding.index, emit_store_local,
      emit_load_local, emit, emit_u16, Chunk.write_u16, Chunk.write, OpCode.toByte]
  · intro ch line nline nm mu idx value
    simp [compile_expr, VarBinding.isLocal, VarBinding.index, emit_store_global,
      emit_load_global, emit, emit_u16, Chunk.write_u16, Chunk.write, OpCode.toByte]

/-- `VM._binary` never touches the program component. -/
theorem binary_program (s : VMState) (op : Int → Int → Except VMFault Int) :
    (VM.binary s op).state.program = s.program := by
  unfold VM.binary
  rcases VM.popStack s.stack with e | ⟨b, st1⟩
  · rfl
  · dsimp only
    rcases VM.popStack st1 with e | ⟨a, st2⟩
    · rfl
    · dsimp only
      rcases op a b with e | v <;> rfl

/-- `VM._call_function` never touches the program component. -/
theorem call_function_program (s : VMState) (fi argc : Nat) (s' : VMState)
    (h : VM.call_function s fi argc = .ok s') : s'.program = s.program := by
  unfold VM.call_function at h
  rcases hfn : s.program.functions[fi]? with _ | fn
  · rw [hfn] at h
    simp at h
  · rw [hfn] at h
    dsimp only at h
    by_cases ha : argc ≠ fn.arity
    · rw [if_pos ha] at h
      simp at h
    · rw [if_neg ha] at h
      by_cases hl : s.stack.length < argc
      · rw [if_pos hl] at h
        simp at h
      · rw [if_neg hl] at h
        have := Except.ok.inj h
        rw [← this]

/-- One VM step never touches the program component. -/
theorem step_program (s : VMState) : (VM.step s).state.program = s.program := by
  obtain ⟨prog, stack, frames, globals, output⟩ := s
  cases frames with
  | nil => rfl
  | cons frame rest =>
    unfold VM.step
    dsimp only
    split
    · split
      · rfl
      · split
        · split
          · rfl
          · split
            · rfl
            · rfl
        · split
          · rfl
          · split
            · rfl
            · rfl
        · split
          · rfl
          · split
            · rfl
            · split
              · rfl
              · rfl
        · split
          · rfl
          · split
            · rfl
            · rfl
        · split
          · rfl
          · split
            · rfl
            · split
              · rfl
              · rfl
        · exact binary_program _ _
        · exact binary_program _ _
        · exact binary_program _ _
        · exact binary_program _ _
        · split
          · rfl
          · rfl
        · split
          · rfl
          · split
            · rfl
            · split
              · rfl
              · rfl
        · split
          · rfl
          · split
            · rfl
            · split
              · rfl
              · rename_i s4 heq
                exact call_function_program _ _ _ _ heq
        · split
          · rfl
          · split
            · rfl
            · rfl
        · split
          · rfl
          · rfl
        · split
          · rfl
          · rfl
        · rfl
    · rfl

/-- The run loop never touches the program component. -/
theorem run_loop_program (fuel : Nat) : ∀ s, (VM.run_loop fuel s).state.program = s.program := by
  induction fuel with
  | zero => intro s; rfl
  | succ n ih =>
    intro s
    unfold VM.run_loop
    split
    · rfl
    · split
      · rename_i s1 heq
        have h1 := step_program s
        rw [heq] at h1
        rw [ih s1]
        exact h1
      · rename_i s1 heq
        have h1 := step_program s
        rw [heq] at h1
        exact h1
      · rename_i e s1 heq
        have h1 := step_program s
        rw [heq] at h1
        exact h1

/-- C10: executing a program never mutates it — the VM copies the
program's globals into its own array at construction, a step only ever
rewrites the copy, and after any run (finished, faulted, or out of fuel)
the program component — functions, globals list and entry index — is the
value it started with. -/
theorem run_preserves_program (program : BytecodeProgram) (fuel : Nat) :
    (VM.init program).globals = program.globals ∧
    (∀ s : VMState, (VM.step s).state.program = s.program) ∧
    (VM.run program fuel).state.program = program := by
  refine ⟨rfl, step_program, ?_⟩
  unfold VM.run
  dsimp only
  rcases hcall : VM.call_function (VM.init program) program.entry_index 0 with e | s1
  · rfl
  · dsimp only
    rw [run_loop_program fuel s1]
    have h1 := call_function_program _ _ _ _ hcall
    rw [h1]
    rfl

mutual

/-- The executable return-path test agrees with the spec's inductive
characterization, statement by statement. -/
theorem stmt_gr_iff : ∀ s : Stmt, stmt_guarantees_return s = true ↔ SpecGuarantees s
  | .varDecl line nm mu init =>
    ⟨fun h => by simp [stmt_guarantees_return] at h, fun h => nomatch h⟩
  | .blockStmt line stmts => by
    constructor
    · intro h
      obtain ⟨s, hs, hg⟩ := (last_gr_iff stmts).mp (by simpa [stmt_guarantees_return] using h)
      exact SpecGuarantees.blockLast line stmts s hs hg
    · intro h
      cases h with
      | blockLast _ _ s hs hg =>
        simp only [stmt_guarantees_return]
        exact (last_gr_iff stmts).mpr ⟨s, hs, hg⟩
  | .exprStmt line e =>
    ⟨fun h => by simp [stmt_guarantees_return] at h, fun h => nomatch h⟩
  | .printStmt line e =>
    ⟨fun h => by simp [stmt_guarantees_return] at h, fun h => nomatch h⟩
  | .ifStmt line cond thenBranch elseBranch => by
    cases elseBranch with
    | none => exact ⟨fun h => by simp [stmt_guarantees_return] at h, fun h => nomatch h⟩
    | some els =>
      constructor
      · intro h
        simp only [stmt_guarantees_return, Bool.and_eq_true] at h
        exact SpecGuarantees.ifBoth line cond thenBranch els
          ((stmt_gr_iff thenBranch).mp h.1) ((stmt_gr_iff els).mp h.2)
      · intro h
        cases h with
        | ifBoth _ _ _ _ ht he =>
          simp only [stmt_guarantees_return, Bool.and_eq_true]
          exact ⟨(stmt_gr_iff thenBranch).mpr ht, (stmt_gr_iff els).mpr he⟩
  | .whileStmt line cond body =>
    ⟨fun h => by simp [stmt_guarantees_return] at h, fun h => nomatch h⟩
  | .returnStmt line value =>
    ⟨fun _ => SpecGuarantees.ret line value, fun _ => rfl⟩

/-- List version: the test of the last statement agrees with the spec's
"its last statement guarantees return". -/
theorem last_gr_iff : ∀ l : List Stmt,
    last_guarantees_return l = true ↔ ∃ s, l.getLast? = some s ∧ SpecGuarantees s
  | [] => by simp [last_guarantees_return]
  | [s] => by
    constructor
    · intro h
      exact ⟨s, by simp, (stmt_gr_iff s).mp h⟩
    · rintro ⟨s', hs', hg⟩
      simp at hs'
      subst hs'
      exact (stmt_gr_iff s).mpr hg
  | a :: b :: rest => by
    have h1 := last_gr_iff (b :: rest)
    have h2 : last_guarantees_return (a :: b :: rest) = last_guarantees_return (b :: rest) := rfl
    have h3 : (a :: b :: rest).getLast? = (b :: rest).getLast? := List.getLast?_cons_cons
    rw [h2, h3]
    exact h1

end

/-- C3: the return-path analysis accepts a body exactly when its last
statement guarantees return in the spec's sense (a return; a block whose
last statement guarantees return; an `if` with both branches present and
each guaranteeing return); a `while` (even one containing the only
return) and an `if` lacking an `else` never count; a function accepted by
`_resolve_function` passes the analysis, and a function whose body
resolves but fails the analysis is rejected with exactly the
missing-return semantic error. -/
theorem return_path_analysis :
    (∀ body : List Stmt, guarantees_return body = true ↔
      ∃ s, body.getLast? = some s ∧ SpecGuarantees s) ∧
    (∀ (line : Nat) (cond : Expr) (body : Stmt),
      stmt_guarantees_return (.whileStmt line cond body) = false) ∧
    (∀ (line : Nat) (cond : Expr) (thenBranch : Stmt),
      stmt_guarantees_return (.ifStmt line cond thenBranch none) = false) ∧
    (∀ (functions : List FunctionSymbol) (g : Scope) (f : FunctionSymbol) (rf : RFunction),
      resolve_function functions g f = .ok rf → guarantees_return f.decl.body = true) ∧
    (∀ (functions : List FunctionSymbol) (g : Scope) (f : FunctionSymbol) (out : List Scope × FnCtx × List RStmt),
      resolve_stmts functions g
          ((f.decl.params.enum.map
            (fun pair => VarBinding.localBinding pair.2.name pair.2.line true pair.1)).foldl
            declare_local [([] : Scope)])
          ⟨f.decl.params.length,
            f.decl.params.enum.map
              (fun pair => VarBinding.localBinding pair.2.name pair.2.line true pair.1)⟩
          f.decl.body = .ok out →
      guarantees_return f.decl.body = false →
      resolve_function functions g f =
        .error ⟨"function " ++ q f.name ++ " may exit without returning", f.decl.line⟩) := by
  refine ⟨fun body => last_gr_iff body, fun _ _ _ => rfl, fun _ _ _ => rfl, ?_, ?_⟩
  · intro functions g f rf h
    unfold resolve_function at h
    dsimp only at h
    rcases hres : resolve_stmts functions g
        ((f.decl.params.enum.map
          (fun pair => VarBinding.localBinding pair.2.name pair.2.line true pair.1)).foldl
          declare_local [([] : Scope)])
        ⟨f.decl.params.length,
          f.decl.params.enum.map
            (fun pair => VarBinding.localBinding pair.2.name pair.2.line true pair.1)⟩
        f.decl.body with e | out
    · rw [hres] at h
      simp [Bind.bind, Except.bind] at h
    · rw [hres] at h
      obtain ⟨scopes1, ctx1, rbody⟩ := out
      by_cases hg : guarantees_return f.decl.body
      · exact hg
      · simp only [Bind.bind, Except.bind, Bool.not_eq_true] at h
        rw [if_neg hg] at h
        simp at h
  · intro functions g f out hres hg
    unfold resolve_function
    dsimp only
    rw [hres]
    obtain ⟨scopes1, ctx1, rbody⟩ := out
    simp only [Bind.bind, Except.bind]
    rw [if_neg (by simp [hg])]

/-- Witness for C3: the resolver accepts `demoAssignProgram`'s `main`
(whose body ends in a return), so its body passes the analysis. -/
theorem return_path_analysis_witness :
    guarantees_return demoAssignMainSymbol.decl.body = true :=
  return_path_analysis.2.2.2.1 demoAssignTop.functions demoAssignTop.global_scope
    demoAssignMainSymbol demoAssignMainResolved (by rfl)

/-- `Chunk.write` appends one byte AND one line entry. -/
theorem write_parallel (c : Chunk) (byte line : Nat) :
    linesParallel c → linesParallel (c.write byte line) := by
  simp [linesParallel, Chunk.write]

/-- `emit` preserves parallelism. -/
theorem emit_parallel (c : Chunk) (opcode : OpCode) (line : Nat) :
    linesParallel c → linesParallel (emit c opcode line) :=
  write_parallel c opcode.toByte line

/-- `emit_u16` preserves parallelism. -/
theorem emit_u16_parallel (c : Chunk) (value line : Nat) :
    linesParallel c → linesParallel (emit_u16 c value line) := by
  intro h
  exact write_parallel _ _ _ (write_parallel _ _ _ h)

/-- The slot-indexed emit helpers preserve parallelism. -/
theorem emit_slot_parallel (c : Chunk) (index line : Nat) :
    linesParallel c →
      linesParallel (emit_load_local c index line) ∧
      linesParallel (emit_store_local c index line) ∧
      linesParallel (emit_load_global c index line) ∧
      linesParallel (emit_store_global c index line) := by
  intro h
  exact ⟨emit_u16_parallel _ _ _ (emit_parallel _ _ _ h),
    emit_u16_parallel _ _ _ (emit_parallel _ _ _ h),
    emit_u16_parallel _ _ _ (emit_parallel _ _ _ h),
    emit_u16_parallel _ _ _ (emit_parallel _ _ _ h)⟩

/-- `emit_call` preserves parallelism. -/
theorem emit_call_parallel (c : Chunk) (func_index argc line : Nat) :
    linesParallel c → linesParallel (emit_call c func_index argc line) := by
  intro h
  exact write_parallel _ _ _ (emit_u16_parallel _ _ _ (emit_parallel _ _ _ h))

/-- `emit_jump` preserves parallelism (opcode plus two placeholder bytes,
each with a line entry). -/
theorem emit_jump_parallel (c : Chunk) (opcode : OpCode) (line : Nat) :
    linesParallel c → linesParallel (emit_jump c opcode line).1 := by
  intro h
  exact write_parallel _ _ _ (write_parallel _ _ _ (emit_parallel _ _ _ h))

/-- `patch_jump` overwrites bytes in place and preserves parallelism. -/
theorem patch_jump_parallel (c : Chunk) (offset : Nat) :
    linesParallel c → linesParallel (patch_jump c offset) := by
  simp [linesParallel, patch_jump, Chunk.patch_u16]

/-- `emit_loop` preserves parallelism. -/
theorem emit_loop_parallel (c : Chunk) (loop_start line : Nat) :
    linesParallel c → linesParallel (emit_loop c loop_start line) := by
  intro h
  exact emit_u16_parallel _ _ _ (emit_parallel _ _ _ h)

mutual

/-- Expression compilation keeps the line table parallel to the bytes. -/
theorem compile_expr_parallel : ∀ (e : RExpr) (ch : Chunk),
    linesParallel ch → linesParallel (compile_expr ch e)
  | .intLit line v, ch, h => by
    have h1 : linesParallel (ch.add_constant v).1 := by
      simpa [linesParallel, Chunk.add_constant] using h
    exact emit_u16_parallel _ _ _ (emit_parallel _ _ _ h1)
  | .varRef line b, ch, h => by
    by_cases hb : b.isLocal <;>
      simp only [compile_expr, hb, if_pos, if_neg, Bool.false_eq_true, ite_true, ite_false]
    · exact (emit_slot_parallel ch b.index line h).1
    · exact (emit_slot_parallel ch b.index line h).2.2.1
  | .assign line b value, ch, h => by
    have h1 := compile_expr_parallel value ch h
    by_cases hb : b.isLocal <;>
      simp only [compile_expr, hb, Bool.false_eq_true, ite_true, ite_false]
    · exact (emit_slot_parallel _ b.index line
        ((emit_slot_parallel _ b.index line h1).2.1)).1
    · exact (emit_slot_parallel _ b.index line
        ((emit_slot_parallel _ b.index line h1).2.2.2)).2.2.1
  | .binary line l op r, ch, h => by
    have h2 := compile_expr_parallel r _ (compile_expr_parallel l ch h)
    exact emit_parallel _ _ _ h2
  | .call line t args, ch, h => by
    have h1 := compile_exprs_parallel args ch h
    exact emit_call_parallel _ _ _ _ h1

/-- Argument-list compilation keeps the line table parallel. -/
theorem compile_exprs_parallel : ∀ (es : List RExpr) (ch : Chunk),
    linesParallel ch → linesParallel (compile_exprs ch es)
  | [], _, h => h
  | e :: es, ch, h => compile_exprs_parallel es _ (compile_expr_parallel e ch h)

end

mutual

/-- Statement compilation keeps the line table parallel to the bytes. -/
theorem compile_stmt_parallel : ∀ (s : RStmt) (ch : Chunk),
    linesParallel ch → linesParallel (compile_stmt ch s)
  | .varDecl line b init, ch, h => by
    have h1 := compile_expr_parallel init ch h
    by_cases hb : b.isLocal <;>
      simp only [compile_stmt, hb, Bool.false_eq_true, ite_true, ite_false]
    · exact (emit_slot_parallel _ b.index line h1).2.1
    · exact (emit_slot_parallel _ b.index line h1).2.2.2
  | .blockStmt line stmts, ch, h => compile_stmts_parallel stmts ch h
  | .exprStmt line e, ch, h => emit_parallel _ _ _ (compile_expr_parallel e ch h)
  | .printStmt line e, ch, h => emit_parallel _ _ _ (compile_expr_parallel e ch h)
  | .ifStmt line cond thenBranch elseBranch, ch, h => by
    have h1 := compile_expr_parallel cond ch h
    have h2 := emit_jump_parallel _ OpCode.jmp_if_false line h1
    have h3 := compile_stmt_parallel thenBranch _ h2
    cases elseBranch with
    | none => exact patch_jump_parallel _ _ h3
    | some els =>
      have h4 := emit_jump_parallel _ OpCode.jmp line h3
      have h5 := patch_jump_parallel _
        (emit_jump (compile_expr ch cond) OpCode.jmp_if_false line).2 h4
      have h6 := compile_stmt_parallel els _ h5
      exact patch_jump_parallel _ _ h6
  | .whileStmt line cond body, ch, h => by
    have h1 := compile_expr_parallel cond ch h
    have h2 := emit_jump_parallel _ OpCode.jmp_if_false line h1
    have h3 := compile_stmt_parallel body _ h2
    have h4 := emit_loop_parallel _ ch.code.length line h3
    exact patch_jump_parallel _ _ h4
  | .returnStmt line value, ch, h => emit_parallel _ _ _ (compile_expr_parallel value ch h)

/-- Statement-list compilation keeps the line table parallel. -/
theorem compile_stmts_parallel : ∀ (ss : List RStmt) (ch : Chunk),
    linesParallel ch → linesParallel (compile_stmts ch ss)
  | [], _, h => h
  | s :: ss, ch, h => compile_stmts_parallel ss _ (compile_stmt_parallel s ch h)

end

/-- The global-initialization prefix keeps the line table parallel. -/
theorem compile_global_inits_parallel (globals : List RGlobal) :
    linesParallel (compile_global_inits globals) := by
  suffices h : ∀ (gs : List RGlobal) (ch : Chunk), linesParallel ch →
      linesParallel (gs.foldl
        (fun ch g => emit_store_global (compile_expr ch g.rinit) g.binding.index g.decl.line) ch) by
    exact h globals Chunk.empty rfl
  intro gs
  induction gs with
  | nil => intro ch h; exact h
  | cons g gs ih =>
    intro ch h
    exact ih _ ((emit_slot_parallel _ g.binding.index g.decl.line
      (compile_expr_parallel g.rinit ch h)).2.2.2)

/-- Every function chunk produced by `compile` (user functions and the
synthesized entry) has its line table parallel to its byte stream. -/
theorem compile_chunks_parallel (resolved : ResolvedProgram) (bp : BytecodeProgram)
    (hc : compile resolved = .ok bp) :
    ∀ fn ∈ bp.functions, linesParallel fn.chunk := by
  unfold compile at hc
  rcases hentry : compile_entry_function resolved with e | entry_fn
  · rw [hentry] at hc
    simp [Bind.bind, Except.bind] at hc
  · rw [hentry] at hc
    simp only [Bind.bind, Except.bind] at hc
    have hbp := Except.ok.inj hc
    intro fn hfn
    rw [← hbp] at hfn
    simp only [List.mem_append, List.mem_map, List.mem_singleton] at hfn
    rcases hfn with ⟨f, _, rfl⟩ | rfl
    · exact compile_stmts_parallel f.rbody Chunk.empty rfl
    · unfold compile_entry_function at hentry
      rcases hmain : resolved.functions.find? (fun f => f.name == "main") with _ | m
      · rw [hmain] at hentry
        simp at hentry
      · rw [hmain] at hentry
        dsimp only at hentry
        have h2 := Except.ok.inj hentry
        rw [← h2]
        exact emit_parallel _ _ _ (emit_parallel _ _ _
          (emit_call_parallel _ _ _ _ (compile_global_inits_parallel resolved.globals)))

set_option maxRecDepth 8192 in
/-- C6 counterexample: in the compiled demo program the line arrays have
20 and 6 entries while the disassembler decodes only 8 and 3 instruction
boundaries — the line array is NOT the length of the decoded instruction
stream (it is one entry per byte, and multi-byte instructions exist). -/
theorem line_table_counterexample :
    (demoAssignCompiled.functions.map (fun fn => fn.chunk.lines.length)) = [20, 6] ∧
    (demoAssignCompiled.functions.map (fun fn =>
      match disassemble_function demoAssignCompiled fn with
      | .ok listing => some listing.length
      | .error _ => none)) = [some 8, some 3] ∧
    (20 : Nat) ≠ 8 ∧ (6 : Nat) ≠ 3 :=
  ⟨rfl, rfl, by decide, by decide⟩

set_option maxRecDepth 8192 in
/-- C6 (amended): in every compiled chunk the source-line array is
parallel to the BYTE stream — one entry per byte, so its length equals
the code array's length (not the decoded-instruction count); the
disassembler reads each decoded instruction's reported line from the
entry at the instruction's opcode byte offset (removing that entry makes
the decode of that offset fault), and the demo program disassembles to
the expected listing, one line per decoded instruction. -/
theorem line_table_per_byte :
    (∀ (resolved : ResolvedProgram) (bp : BytecodeProgram), compile resolved = .ok bp →
      ∀ fn ∈ bp.functions, fn.chunk.lines.length = fn.chunk.code.length) ∧
    (∀ (program : BytecodeProgram) (chunk : Chunk) (fuel offset : Nat),
      offset < chunk.code.length → chunk.lines[offset]? = none →
      disassemble_loop program chunk (fuel + 1) offset = .error .indexError) ∧
    disassemble_program demoAssignCompiled = .ok
      ("== fn 0 main ==\n0000 line   2 PUSH_CONST    #0 (0)\n0003 line   2 STORE_LOCAL   0\n0006 line   3 PUSH_CONST    #1 (5)\n0009 line   3 STORE_LOCAL   0\n0012 line   3 LOAD_LOCAL    0\n0015 line   3 PRINT\n0016 line   4 PUSH_CONST    #2 (0)\n0019 line   4 RET\n== fn 1 <entry> ==\n0000 line   1 CALL           0 main argc=0\n0004 line   1 POP\n0005 line   1 HALT") := by
  refine ⟨?_, ?_, by rfl⟩
  · intro resolved bp hc fn hfn
    exact compile_chunks_parallel resolved bp hc fn hfn
  · intro program chunk fuel offset hoff hnone
    unfold disassemble_loop
    rw [dif_pos hoff, hnone]

/-- Witness for the amended C6: the demo program's compiled chunks all
satisfy the per-byte parallelism, and a chunk with a byte but no line
entry faults when disassembled. -/
theorem line_table_per_byte_witness :
    (∀ fn ∈ demoAssignCompiled.functions, fn.chunk.lines.length = fn.chunk.code.length) ∧
    disassemble_loop demoAssignCompiled ⟨[5], [], []⟩ 1 0 = .error .indexError :=
  ⟨line_table_per_byte.1 demoAssignResolved demoAssignCompiled (by rfl),
   line_table_per_byte.2.1 demoAssignCompiled ⟨[5], [], []⟩ 0 0 (by decide) (by rfl)⟩

/-- Appending an element whose assigned slot equals the current length
preserves positional density. -/
theorem dense_append {α : Type} (f : α → Nat) (l : List α) (x : α)
    (hl : ∀ i (hi : i < l.length), f (l.get ⟨i, hi⟩) = i) (hx : f x = l.length) :
    ∀ i (hi : i < (l ++ [x]).length), f ((l ++ [x]).get ⟨i, hi⟩) = i := by
  intro i hi
  rcases Nat.lt_or_ge i l.length with h | h
  · have : (l ++ [x]).get ⟨i, hi⟩ = l.get ⟨i, h⟩ := List.getElem_append_left h
    rw [this]
    exact hl i h
  · have hlen : i = l.length := by
      simp at hi
      omega
    have : (l ++ [x]).get ⟨i, hi⟩ = x := List.getElem_concat_length l x i hlen hi
    rw [this, hx, hlen]

/-- `CtxStep` is reflexive. -/
theorem ctx_step_refl (ctx : FnCtx) : CtxStep ctx ctx :=
  ⟨⟨[], by simp⟩, id⟩

/-- `CtxStep` composes. -/
theorem ctx_step_trans {a b c : FnCtx} (h1 : CtxStep a b) (h2 : CtxStep b c) : CtxStep a c := by
  obtain ⟨⟨s1, hs1⟩, hi1⟩ := h1
  obtain ⟨⟨s2, hs2⟩, hi2⟩ := h2
  exact ⟨⟨s1 ++ s2, by rw [hs2, hs1, List.append_assoc]⟩, fun h => hi2 (hi1 h)⟩

/-- Declaring one fresh local (the `_resolve_local_var` allocation) is a
context step. -/
theorem ctx_step_declare (ctx : FnCtx) (nm : String) (line : Nat) (mu : Bool) :
    CtxStep ctx ⟨ctx.next_local_index + 1,
      ctx.locals ++ [VarBinding.localBinding nm line mu ctx.next_local_index]⟩ := by
  refine ⟨⟨[VarBinding.localBinding nm line mu ctx.next_local_index], rfl⟩, ?_⟩
  rintro ⟨h1, h2⟩
  constructor
  · simp [h1]
  · exact dense_append VarBinding.index ctx.locals _ h2 (by simp [VarBinding.index, h1])

mutual

/-- Resolving one statement only appends dense locals to the context. -/
theorem resolve_stmt_ctx : ∀ (s : Stmt) (functions : List FunctionSymbol) (g : Scope)
    (scopes : List Scope) (ctx : FnCtx) (out : List Scope × FnCtx × RStmt),
    resolve_stmt functions g scopes ctx s = .ok out → CtxStep ctx out.2.1
  | .varDecl line nm mu init, functions, g, scopes, ctx, out, h => by
    unfold resolve_stmt at h
    rcases hre : resolve_expr functions g scopes init with e | rinit
    · rw [hre] at h
      simp [Bind.bind, Except.bind] at h
    · rw [hre] at h
      simp only [Bind.bind, Except.bind] at h
      have h2 := Except.ok.inj h
      rw [← h2]
      exact ctx_step_declare ctx nm line mu
  | .blockStmt line stmts, functions, g, scopes, ctx, out, h => by
    unfold resolve_stmt at h
    rcases hrs : resolve_stmts functions g (([] : Scope) :: scopes) ctx stmts
        with e | ⟨scopes1, ctx1, rstmts⟩
    · rw [hrs] at h
      simp [Bind.bind, Except.bind] at h
    · rw [hrs] at h
      simp only [Bind.bind, Except.bind] at h
      have h2 := Except.ok.inj h
      rw [← h2]
      exact resolve_stmts_ctx stmts functions g (([] : Scope) :: scopes) ctx _ hrs
  | .exprStmt line e, functions, g, scopes, ctx, out, h => by
    unfold resolve_stmt at h
    rcases hre : resolve_expr functions g scopes e with er | re
    · rw [hre] at h
      simp [Bind.bind, Except.bind] at h
    · rw [hre] at h
      simp only [Bind.bind, Except.bind] at h
      have h2 := Except.ok.inj h
      rw [← h2]
      exact ctx_step_refl ctx
  | .printStmt line e, functions, g, scopes, ctx, out, h => by
    unfold resolve_stmt at h
    rcases hre : resolve_expr functions g scopes e with er | re
    · rw [hre] at h
      simp [Bind.bind, Except.bind] at h
    · rw [hre] at h
      simp only [Bind.bind, Except.bind] at h
      have h2 := Except.ok.inj h
      rw [← h2]
      exact ctx_step_refl ctx
  | .ifStmt line cond thenBranch elseBranch, functions, g, scopes, ctx, out, h => by
    unfold resolve_stmt at h
    rcases hre : resolve_expr functions g scopes cond with er | rcond
    · rw [hre] at h
      simp [Bind.bind, Except.bind] at h
    · rw [hre] at h
      simp only [Bind.bind, Except.bind] at h
      rcases hthen : resolve_stmt functions g scopes ctx thenBranch
          with er | ⟨scopes1, ctx1, rthen⟩
      · rw [hthen] at h
        simp at h
      · rw [hthen] at h
        dsimp only at h
        have hstep1 := resolve_stmt_ctx thenBranch functions g scopes ctx _ hthen
        cases elseBranch with
        | none =>
          have h2 := Except.ok.inj h
          rw [← h2]
          exact hstep1
        | some els =>
          dsimp only at h
          rcases hels : resolve_stmt functions g scopes1 ctx1 els
              with er | ⟨scopes2, ctx2, rels⟩
          · rw [hels] at h
            simp [Bind.bind, Except.bind] at h
          · rw [hels] at h
            simp only [Bind.bind, Except.bind] at h
            have h2 := Except.ok.inj h
            rw [← h2]
            exact ctx_step_trans hstep1
              (resolve_stmt_ctx els functions g scopes1 ctx1 (scopes2, ctx2, rels) hels)
  | .whileStmt line cond body, functions, g, scopes, ctx, out, h => by
    unfold resolve_stmt at h
    rcases hre : resolve_expr functions g scopes cond with er | rcond
    · rw [hre] at h
      simp [Bind.bind, Except.bind] at h
    · rw [hre] at h
      simp only [Bind.bind, Except.bind] at h
      rcases hbody : resolve_stmt functions g scopes ctx body
          with er | ⟨scopes1, ctx1, rbody⟩
      · rw [hbody] at h
        simp at h
      · rw [hbody] at h
        dsimp only at h
        have h2 := Except.ok.inj h
        rw [← h2]
        exact resolve_stmt_ctx body functions g scopes ctx (scopes1, ctx1, rbody) hbody
  | .returnStmt line value, functions, g, scopes, ctx, out, h => by
    unfold resolve_stmt at h
    rcases hre : resolve_expr functions g scopes value with er | rv
    · rw [hre] at h
      simp [Bind.bind, Except.bind] at h
    · rw [hre] at h
      simp only [Bind.bind, Except.bind] at h
      have h2 := Except.ok.inj h
      rw [← h2]
      exact ctx_step_refl ctx

/-- Resolving a statement list only appends dense locals. -/
theorem resolve_stmts_ctx : ∀ (ss : List Stmt) (functions : List FunctionSymbol) (g : Scope)
    (scopes : List Scope) (ctx : FnCtx) (out : List Scope × FnCtx × List RStmt),
    resolve_stmts functions g scopes ctx ss = .ok out → CtxStep ctx out.2.1
  | [], functions, g, scopes, ctx, out, h => by
    unfold resolve_stmts at h
    have h2 := Except.ok.inj h
    rw [← h2]
    exact ctx_step_refl ctx
  | s :: ss, functions, g, scopes, ctx, out, h => by
    unfold resolve_stmts at h
    rcases hs : resolve_stmt functions g scopes ctx s with er | ⟨scopes1, ctx1, r⟩
    · rw [hs] at h
      simp [Bind.bind, Except.bind] at h
    · rw [hs] at h
      simp only [Bind.bind, Except.bind] at h
      rcases hss : resolve_stmts functions g scopes1 ctx1 ss
          with er | ⟨scopes2, ctx2, rs⟩
      · rw [hss] at h
        simp at h
      · rw [hss] at h
        dsimp only at h
        have h2 := Except.ok.inj h
        rw [← h2]
        exact ctx_step_trans (resolve_stmt_ctx s functions g scopes ctx (scopes1, ctx1, r) hs)
          (resolve_stmts_ctx ss functions g scopes1 ctx1 (scopes2, ctx2, rs) hss)

end

/-- The parameter bindings alone form a dense context: parameter `j` sits
at slot `j`, and the next free slot is the arity. -/
theorem params_ctx_inv (params : List Param) :
    CtxInv ⟨params.length,
      params.enum.map (fun pair => VarBinding.localBinding pair.2.name pair.2.line true pair.1)⟩ := by
  constructor
  · simp
  · intro j hj
    simp only [List.get_eq_getElem, List.length_map, List.enum_length] at hj ⊢
    simp [List.getElem_map, List.getElem_enum, VarBinding.index]

/-- Folding `max` of `index + 1` over a shifted-dense list computes the
high-water mark. -/
theorem foldl_max_dense : ∀ (l : List VarBinding) (k acc : Nat),
    (∀ j (hj : j < l.length), (l.get ⟨j, hj⟩).index = k + j) →
    l.foldl (fun m b => max m (b.index + 1)) acc =
      if l.length = 0 then acc else max acc (k + l.length)
  | [], k, acc, h => by simp
  | b :: t, k, acc, h => by
    have hb : b.index = k := by
      have := h 0 (by simp)
      simpa using this
    have ht : ∀ j (hj : j < t.length), (t.get ⟨j, hj⟩).index = (k + 1) + j := by
      intro j hj
      have := h (j + 1) (by simp [Nat.succ_lt_succ hj])
      simp only [List.get_eq_getElem, List.getElem_cons_succ] at this
      simp only [List.get_eq_getElem]
      omega
    have ih := foldl_max_dense t (k + 1) (max acc (b.index + 1)) ht
    simp only [List.foldl_cons]
    rw [ih]
    by_cases hl : t.length = 0
    · rw [if_pos hl, if_neg (by simp)]
      simp [hl, hb]
    · rw [if_neg hl, if_neg (by simp)]
      simp only [List.length_cons, hb]
      omega

/-- On a dense list the computed frame size is exactly the number of
allocated locals. -/
theorem max_locals_of_dense (l : List VarBinding)
    (h : ∀ j (hj : j < l.length), (l.get ⟨j, hj⟩).index = j) :
    max_locals_of l = l.length := by
  have h0 := foldl_max_dense l 0 0 (by simpa using h)
  unfold max_locals_of
  rw [h0]
  by_cases hl : l.length = 0 <;> simp [hl]

/-- What `_resolve_function` produces: the symbol's identity fields are
kept, the locals start with the parameter bindings at slots `0..arity`,
every local sits at the slot equal to its allocation position, and
`max_locals` is the number of locals. -/
theorem resolve_function_locals (functions : List FunctionSymbol) (g : Scope)
    (f : FunctionSymbol) (rf : RFunction) (h : resolve_function functions g f = .ok rf) :
    rf.name = f.name ∧ rf.index = f.index ∧ rf.arity = f.arity ∧ rf.decl = f.decl ∧
    (∃ suffix, rf.locals =
      f.decl.params.enum.map
        (fun pair => VarBinding.localBinding pair.2.name pair.2.line true pair.1) ++ suffix) ∧
    (∀ j (hj : j < rf.locals.length), (rf.locals.get ⟨j, hj⟩).index = j) ∧
    rf.max_locals = rf.locals.length := by
  unfold resolve_function at h
  dsimp only at h
  rcases hres : resolve_stmts functions g
      ((f.decl.params.enum.map
        (fun pair => VarBinding.localBinding pair.2.name pair.2.line true pair.1)).foldl
        declare_local [([] : Scope)])
      ⟨f.decl.params.length,
        f.decl.params.enum.map
          (fun pair => VarBinding.localBinding pair.2.name pair.2.line true pair.1)⟩
      f.decl.body with er | ⟨scopes1, ctx1, rbody⟩
  · rw [hres] at h
    simp [Bind.bind, Except.bind] at h
  · rw [hres] at h
    simp only [Bind.bind, Except.bind] at h
    by_cases hg : guarantees_return f.decl.body
    · rw [if_pos (by simp [hg])] at h
      have hstep := resolve_stmts_ctx f.decl.body functions g _ _ (scopes1, ctx1, rbody) hres
      have hinv := hstep.2 (params_ctx_inv f.decl.params)
      obtain ⟨suffix, hsuf⟩ := hstep.1
      have h2 := Except.ok.inj h
      rw [← h2]
      exact ⟨rfl, rfl, rfl, rfl, ⟨suffix, hsuf⟩, hinv.2, max_locals_of_dense _ hinv.2⟩
    · rw [if_neg (by simp [hg])] at h
      simp at h

/-- The top-level pass assigns global slots and function indices densely,
in declaration order, and records each function's arity as its parameter
count. -/
theorem declare_top_level_inv : ∀ (decls : List Decl) (acc out : TopLevel),
    declare_top_level decls acc = .ok out →
    ((∀ i (hi : i < acc.globals.length), (acc.globals.get ⟨i, hi⟩).2.index = i) →
     ∀ i (hi : i < out.globals.length), (out.globals.get ⟨i, hi⟩).2.index = i) ∧
    ((∀ i (hi : i < acc.functions.length),
        (acc.functions.get ⟨i, hi⟩).index = i ∧
        (acc.functions.get ⟨i, hi⟩).arity = (acc.functions.get ⟨i, hi⟩).decl.params.length) →
     ∀ i (hi : i < out.functions.length),
        (out.functions.get ⟨i, hi⟩).index = i ∧
        (out.functions.get ⟨i, hi⟩).arity = (out.functions.get ⟨i, hi⟩).decl.params.length)
  | [], acc, out, h => by
    have h2 : acc = out := Except.ok.inj h
    rw [← h2]
    exact ⟨fun hg => hg, fun hf => hf⟩
  | .var d :: rest, acc, out, h => by
    unfold declare_top_level at h
    by_cases hdup : (List.lookup d.name acc.global_scope).isSome
        || (acc.functions.find? (fun f => f.name == d.name)).isSome
    · rw [if_pos (by simpa using hdup)] at h
      simp at h
    · rw [if_neg (by simpa using hdup)] at h
      have ih := declare_top_level_inv rest _ out h
      constructor
      · intro hg
        apply ih.1
        exact dense_append (fun p => p.2.index) acc.globals
          (d, VarBinding.globalBinding d.name d.line d.mutable acc.globals.length) hg
          (by simp [VarBinding.index])
      · intro hf
        apply ih.2
        exact hf
  | .fn f :: rest, acc, out, h => by
    unfold declare_top_level at h
    by_cases hdup : (acc.functions.find? (fun g => g.name == f.name)).isSome
        || (List.lookup f.name acc.global_scope).isSome
    · rw [if_pos (by simpa using hdup)] at h
      simp at h
    · rw [if_neg (by simpa using hdup)] at h
      have ih := declare_top_level_inv rest _ out h
      constructor
      · intro hg
        exact ih.1 hg
      · intro hf
        apply ih.2
        intro i hi
        rcases Nat.lt_or_ge i acc.functions.length with hlt | hge
        · have heq : (acc.functions ++
              [(⟨f.name, acc.functions.length, f.params.length, f⟩ : FunctionSymbol)]).get
              ⟨i, hi⟩ = acc.functions.get ⟨i, hlt⟩ := List.getElem_append_left hlt
          rw [heq]
          exact hf i hlt
        · have hlen : i = acc.functions.length := by
            simp at hi
            omega
          have heq : (acc.functions ++
              [(⟨f.name, acc.functions.length, f.params.length, f⟩ : FunctionSymbol)]).get
              ⟨i, hi⟩ = ⟨f.name, acc.functions.length, f.params.length, f⟩ :=
            List.getElem_concat_length _ _ i hlen hi
          rw [heq, hlen]
          exact ⟨rfl, rfl⟩

/-- `resolve_globals` keeps the declaration order and bindings. -/
theorem resolve_globals_get : ∀ (gs : List (GlobalVarDecl × VarBinding))
    (functions : List FunctionSymbol) (g : Scope) (out : List RGlobal),
    resolve_globals functions g gs = .ok out →
    out.length = gs.length ∧
    ∀ i (hi : i < out.length) (hi2 : i < gs.length),
      (out.get ⟨i, hi⟩).binding = (gs.get ⟨i, hi2⟩).2
  | [], functions, g, out, h => by
    have h2 := Except.ok.inj h
    rw [← h2]
    exact ⟨rfl, fun i hi hi2 => absurd hi (by simp)⟩
  | (d, b) :: rest, functions, g, out, h => by
    unfold resolve_globals at h
    rcases hre : resolve_expr functions g [g] d.init with er | rinit
    · rw [hre] at h
      simp [Bind.bind, Except.bind] at h
    · rw [hre] at h
      simp only [Bind.bind, Except.bind] at h
      rcases hrs : resolve_globals functions g rest with er | rs
      · rw [hrs] at h
        simp at h
      · rw [hrs] at h
        dsimp only at h
        have h2 := Except.ok.inj h
        have ih := resolve_globals_get rest functions g rs hrs
        rw [← h2]
        constructor
        · simp [ih.1]
        · intro i hi hi2
          cases i with
          | zero => rfl
          | succ j =>
            have hj : j < rs.length := by simpa using hi
            have hj2 : j < rest.length := by simpa using hi2
            have := ih.2 j hj hj2
            simpa using this

/-- `resolve_functions` resolves each symbol in order. -/
theorem resolve_functions_get : ∀ (fs : List FunctionSymbol)
    (functions : List FunctionSymbol) (g : Scope) (out : List RFunction),
    resolve_functions functions g fs = .ok out →
    out.length = fs.length ∧
    ∀ i (hi : i < out.length) (hi2 : i < fs.length),
      resolve_function functions g (fs.get ⟨i, hi2⟩) = .ok (out.get ⟨i, hi⟩)
  | [], functions, g, out, h => by
    have h2 := Except.ok.inj h
    rw [← h2]
    exact ⟨rfl, fun i hi hi2 => absurd hi (by simp)⟩
  | f :: rest, functions, g, out, h => by
    unfold resolve_functions at h
    rcases hrf : resolve_function functions g f with er | rf
    · rw [hrf] at h
      simp [Bind.bind, Except.bind] at h
    · rw [hrf] at h
      simp only [Bind.bind, Except.bind] at h
      rcases hrs : resolve_functions functions g rest with er | rs
      · rw [hrs] at h
        simp at h
      · rw [hrs] at h
        dsimp only at h
        have h2 := Except.ok.inj h
        have ih := resolve_functions_get rest functions g rs hrs
        rw [← h2]
        constructor
        · simp [ih.1]
        · intro i hi hi2
          cases i with
          | zero => exact hrf
          | succ j =>
            have hj : j < rs.length := by simpa using hi
            have hj2 : j < rest.length := by simpa using hi2
            exact ih.2 j hj hj2

/-- C7: after resolution, global slot indices are dense and zero-based in
first-declaration order; within each function the locals list is dense and
zero-based in first-appearance order (local `j` holds slot `j`), the
parameter bindings occupy slots `0..arity` before any block-local
declaration (the locals list literally starts with them, mutable, in
order), the function's arity is its parameter count, slot indices are
never reused across sibling or nested blocks (all distinct), and the
frame size `max_locals` is the high-water mark — the total number of
allocated locals. -/
theorem slot_indices_dense (program : Program) (r : ResolvedProgram)
    (h : resolve program = .ok r) :
    (∀ i (hi : i < r.globals.length), (r.globals.get ⟨i, hi⟩).binding.index = i) ∧
    (∀ f ∈ r.functions,
      (∀ j (hj : j < f.locals.length), (f.locals.get ⟨j, hj⟩).index = j) ∧
      f.locals.take f.decl.params.length =
        f.decl.params.enum.map
          (fun pair => VarBinding.localBinding pair.2.name pair.2.line true pair.1) ∧
      f.arity = f.decl.params.length ∧
      List.Pairwise (fun a b => a.index ≠ b.index) f.locals ∧
      f.max_locals = f.locals.length) := by
  unfold resolve at h
  rcases htop : declare_top_level program ⟨[], [], []⟩ with er | top
  · rw [htop] at h
    simp [Bind.bind, Except.bind] at h
  · rw [htop] at h
    simp only [Bind.bind, Except.bind] at h
    rcases hrg : resolve_globals top.functions top.global_scope top.globals with er | rg
    · rw [hrg] at h
      simp at h
    · rw [hrg] at h
      dsimp only at h
      rcases hrfn : resolve_functions top.functions top.global_scope top.functions with er | rfn
      · rw [hrfn] at h
        simp at h
      · rw [hrfn] at h
        dsimp only [pure, Except.pure] at h
        have h2 := Except.ok.inj h
        rw [← h2]
        have htopinv := declare_top_level_inv program ⟨[], [], []⟩ top htop
        have hgdense := htopinv.1 (fun i hi => absurd hi (by simp))
        have hfinv := htopinv.2 (fun i hi => absurd hi (by simp))
        have hrgget := resolve_globals_get top.globals top.functions top.global_scope rg hrg
        have hrfnget := resolve_functions_get top.functions top.functions top.global_scope rfn hrfn
        constructor
        · intro i hi
          have hi2 : i < top.globals.length := by
            rw [← hrgget.1]
            exact hi
          rw [hrgget.2 i hi hi2]
          exact hgdense i hi2
        · intro f hf
          obtain ⟨⟨i, hi⟩, hget⟩ := List.mem_iff_get.mp hf
          have hi2 : i < top.functions.length := by
            rw [← hrfnget.1]
            exact hi
          have hres := hrfnget.2 i hi hi2
          rw [hget] at hres
          obtain ⟨hname, hindex, harity, hdecl, ⟨suffix, hsuf⟩, hdense, hmax⟩ :=
            resolve_function_locals top.functions top.global_scope
              (top.functions.get ⟨i, hi2⟩) f hres
          refine ⟨hdense, ?_, ?_, ?_, hmax⟩
          · rw [hdecl, hsuf]
            have hlen : (((top.functions.get ⟨i, hi2⟩).decl.params.enum.map
                (fun pair => VarBinding.localBinding pair.2.name pair.2.line true pair.1))).length =
                (top.functions.get ⟨i, hi2⟩).decl.params.length := by
              simp
            rw [← hlen, List.take_left]
          · rw [harity, hdecl]
            exact (hfinv i hi2).2
          · rw [List.pairwise_iff_get]
            intro a b hab
            rw [hdense a.1 a.2, hdense b.1 b.2]
            omega

/-- Witness for C7 on the demo program with a global, two parameters, a
body local and a nested-block local. -/
theorem slot_indices_dense_witness :
    (∀ i (hi : i < demoSlotsResolved.globals.length),
      (demoSlotsResolved.globals.get ⟨i, hi⟩).binding.index = i) ∧
    (∀ f ∈ demoSlotsResolved.functions,
      (∀ j (hj : j < f.locals.length), (f.locals.get ⟨j, hj⟩).index = j) ∧
      f.locals.take f.decl.params.length =
        f.decl.params.enum.map
          (fun pair => VarBinding.localBinding pair.2.name pair.2.line true pair.1) ∧
      f.arity = f.decl.params.length ∧
      List.Pairwise (fun a b => a.index ≠ b.index) f.locals ∧
      f.max_locals = f.locals.length) :=
  slot_indices_dense demoSlotsProgram demoSlotsResolved (by rfl)

/-- C1 counterexample: compiling `fn main(p) { return 0; }` produces an
entry function whose CALL carries argument count 1 (the declared
parameter count, not zero), the runtime arity check therefore passes, and
the run aborts with the `call stack underflow` fatal error — not an
arity-mismatch fault. -/
theorem entry_arity_counterexample :
    mainWithParamCompiled.functions.map (fun fn => fn.chunk.code) =
      [[0, 0, 0, 12], [11, 0, 0, 1, 14, 15]] ∧
    (VM.run mainWithParamCompiled 10).faultKind? =
      some (.vmError ("call stack underflow")) ∧
    (∀ msg, (VM.run mainWithParamCompiled 10).faultKind? = some (.vmError msg) →
      msg = "call stack underflow") := by
  refine ⟨rfl, rfl, ?_⟩
  intro msg h
  have h0 : (VM.run mainWithParamCompiled 10).faultKind? =
      some (.vmError ("call stack underflow")) := rfl
  rw [h0] at h
  exact (VMFault.vmError.inj (Option.some.inj h)).symm

/-- C1 (amended): the synthesized entry function, after the
global-initialization prefix, calls `main` with an argument-count byte
equal to `main`'s DECLARED parameter count (`len(main.decl.params)`, not
zero), pops the return value and halts; consequently, when `main`
declares one or more parameters the runtime arity check passes and the
entry call faults with `call stack underflow` (the operand stack is
empty at the call), not with an arity-mismatch fault. -/
theorem entry_calls_main_with_declared_arity
    (r : ResolvedProgram) (m : RFunction) (bp : BytecodeProgram)
    (hm : r.functions.find? (fun f => f.name == "main") = some m)
    (hc : compile r = .ok bp) :
    ∃ entry_fn : BytecodeFunction,
      bp.functions = r.functions.map compile_function ++ [entry_fn] ∧
      bp.entry_index = r.functions.length ∧
      entry_fn.name = "<entry>" ∧ entry_fn.arity = 0 ∧ entry_fn.num_locals = 0 ∧
      entry_fn.chunk.code = (compile_global_inits r.globals).code ++
        [11, m.index / 256 % 256, m.index % 256, m.decl.params.length, 14, 15] ∧
      (r.globals = [] → r.functions[m.index]? = some m → m.index < 65536 →
        m.arity = m.decl.params.length → 1 ≤ m.decl.params.length →
        VM.step ⟨bp, [], [⟨entry_fn, 0, 0⟩], bp.globals, []⟩ =
          .fault (.vmError ("call stack underflow"))
            ⟨bp, [], [⟨entry_fn, 4, 0⟩], bp.globals, []⟩ ∧
        ∀ fuel, VM.run bp (fuel + 1) =
          .fault (.vmError ("call stack underflow"))
            ⟨bp, [], [⟨entry_fn, 4, 0⟩], bp.globals, []⟩) := by
  unfold compile compile_entry_function at hc
  rw [hm] at hc
  dsimp only at hc
  simp only [Bind.bind, Except.bind] at hc
  have hbp := Except.ok.inj hc
  subst hbp
  refine ⟨⟨"<entry>",
    emit (emit (emit_call (compile_global_inits r.globals) m.index m.decl.params.length
      m.decl.line) .pop m.decl.line) .halt m.decl.line, 0, 0⟩,
    rfl, by simp, rfl, rfl, rfl, ?_, ?_⟩
  · simp [emit_call, emit, emit_u16, Chunk.write_u16, Chunk.write, OpCode.toByte,
      List.append_assoc]
  · intro hg hidx hlt harity hparams
    have hcode : (emit (emit (emit_call (compile_global_inits r.globals) m.index
        m.decl.params.length m.decl.line) .pop m.decl.line) .halt m.decl.line).code =
        [11, m.index / 256 % 256, m.index % 256, m.decl.params.length, 14, 15] := by
      rw [hg]
      simp [compile_global_inits, emit_call, emit, emit_u16, Chunk.write_u16, Chunk.write,
        OpCode.toByte, Chunk.empty]
    have hmlt : m.index < r.functions.length := (List.getElem?_eq_some.mp hidx).1
    have hfnidx : (r.functions.map compile_function ++
        [(⟨"<entry>",
          emit (emit (emit_call (compile_global_inits r.globals) m.index m.decl.params.length
            m.decl.line) .pop m.decl.line) .halt m.decl.line, 0, 0⟩ : BytecodeFunction)])[m.index]? =
        some (compile_function m) := by
      rw [List.getElem?_append]
      rw [if_pos (by simpa using hmlt)]
      rw [List.getElem?_map, hidx]
      rfl
    have harity2 : (compile_function m).arity = m.decl.params.length := by
      simp [compile_function, ← harity]
    have hstep : VM.step ⟨⟨r.functions.map compile_function ++
          [⟨"<entry>",
            emit (emit (emit_call (compile_global_inits r.globals) m.index m.decl.params.length
              m.decl.line) .pop m.decl.line) .halt m.decl.line, 0, 0⟩],
          r.globals.map (fun _ => 0), (r.functions.map compile_function).length⟩,
          [], [⟨⟨"<entry>",
            emit (emit (emit_call (compile_global_inits r.globals) m.index m.decl.params.length
              m.decl.line) .pop m.decl.line) .halt m.decl.line, 0, 0⟩, 0, 0⟩],
          (⟨r.functions.map compile_function ++
            [⟨"<entry>",
              emit (emit (emit_call (compile_global_inits r.globals) m.index
                m.decl.params.length m.decl.line) .pop m.decl.line) .halt m.decl.line, 0, 0⟩],
            r.globals.map (fun _ => 0),
            (r.functions.map compile_function).length⟩ : BytecodeProgram).globals, []⟩ =
        .fault (.vmError ("call stack underflow"))
          ⟨⟨r.functions.map compile_function ++
            [⟨"<entry>",
              emit (emit (emit_call (compile_global_inits r.globals) m.index
                m.decl.params.length m.decl.line) .pop m.decl.line) .halt m.decl.line, 0, 0⟩],
            r.globals.map (fun _ => 0), (r.functions.map compile_function).length⟩,
          [], [⟨⟨"<entry>",
            emit (emit (emit_call (compile_global_inits r.globals) m.index m.decl.params.length
              m.decl.line) .pop m.decl.line) .halt m.decl.line, 0, 0⟩, 4, 0⟩],
          (⟨r.functions.map compile_function ++
            [⟨"<entry>",
              emit (emit (emit_call (compile_global_inits r.globals) m.index
                m.decl.params.length m.decl.line) .pop m.decl.line) .halt m.decl.line, 0, 0⟩],
            r.globals.map (fun _ => 0),
            (r.functions.map compile_function).length⟩ : BytecodeProgram).globals, []⟩ := by
      unfold VM.step
      dsimp only
      rw [dif_pos (by rw [hcode]; simp)]
      simp only [hcode]
      simp only [List.getElem_cons_zero, OpCode.ofByte?]
      unfold VM.read_u16 VM.read_byte
      simp only [hcode, List.getElem?_cons_zero, List.getElem?_cons_succ]
      rw [u16_roundtrip m.index hlt]
      unfold VM.call_function
      dsimp only
      rw [hfnidx]
      dsimp only
      rw [if_neg (by simp [harity2])]
      rw [if_pos (by simp only [List.length_nil]; omega)]
    refine ⟨hstep, ?_⟩
    intro fuel
    have hinit : VM.call_function
        (VM.init ⟨r.functions.map compile_function ++
          [⟨"<entry>",
            emit (emit (emit_call (compile_global_inits r.globals) m.index m.decl.params.length
              m.decl.line) .pop m.decl.line) .halt m.decl.line, 0, 0⟩],
          r.globals.map (fun _ => 0), (r.functions.map compile_function).length⟩)
        (r.functions.map compile_function).length 0 =
        .ok ⟨⟨r.functions.map compile_function ++
          [⟨"<entry>",
            emit (emit (emit_call (compile_global_inits r.globals) m.index m.decl.params.length
              m.decl.line) .pop m.decl.line) .halt m.decl.line, 0, 0⟩],
          r.globals.map (fun _ => 0), (r.functions.map compile_function).length⟩,
        [], [⟨⟨"<entry>",
          emit (emit (emit_call (compile_global_inits r.globals) m.index m.decl.params.length
            m.decl.line) .pop m.decl.line) .halt m.decl.line, 0, 0⟩, 0, 0⟩],
        r.globals.map (fun _ => 0), []⟩ := by
      unfold VM.call_function VM.init
      dsimp only
      rw [List.getElem?_concat_length]
      dsimp only
      rw [if_neg (by simp)]
      rw [if_neg (by simp)]
      simp
    unfold VM.run
    dsimp only
    rw [hinit]
    dsimp only
    unfold VM.run_loop
    dsimp only
    rw [if_neg (by simp)]
    rw [hstep]

/-- Witness for the amended C1 at the concrete program
`fn main(p) { return 0; }`. -/
theorem entry_calls_main_with_declared_arity_witness :
    ∃ entry_fn : BytecodeFunction,
      mainWithParamCompiled.functions =
        mainWithParamResolved.functions.map compile_function ++ [entry_fn] ∧
      mainWithParamCompiled.entry_index = mainWithParamResolved.functions.length ∧
      entry_fn.name = "<entry>" ∧ entry_fn.arity = 0 ∧ entry_fn.num_locals = 0 ∧
      entry_fn.chunk.code = (compile_global_inits mainWithParamResolved.globals).code ++
        [11, mainWithParamMain.index / 256 % 256, mainWithParamMain.index % 256,
         mainWithParamMain.decl.params.length, 14, 15] ∧
      (mainWithParamResolved.globals = [] →
        mainWithParamResolved.functions[mainWithParamMain.index]? = some mainWithParamMain →
        mainWithParamMain.index < 65536 →
        mainWithParamMain.arity = mainWithParamMain.decl.params.length →
        1 ≤ mainWithParamMain.decl.params.length →
        VM.step ⟨mainWithParamCompiled, [], [⟨entry_fn, 0, 0⟩],
            mainWithParamCompiled.globals, []⟩ =
          .fault (.vmError ("call stack underflow"))
            ⟨mainWithParamCompiled, [], [⟨entry_fn, 4, 0⟩],
              mainWithParamCompiled.globals, []⟩ ∧
        ∀ fuel, VM.run mainWithParamCompiled (fuel + 1) =
          .fault (.vmError ("call stack underflow"))
            ⟨mainWithParamCompiled, [], [⟨entry_fn, 4, 0⟩],
              mainWithParamCompiled.globals, []⟩) :=
  entry_calls_main_with_declared_arity mainWithParamResolved mainWithParamMain
    mainWithParamCompiled (by rfl) (by rfl)


end Decaf
